import Mathlib

/-!
# Verification of the SpatialHaptics multi-speaker tactile spatialiser

A shallow embedding of the SpatialHaptics repository, together with proofs of
the documented properties.

Two groups of definitions appear below.

* The sensor firmware (`src/teensycode/teensycode.ino`) is real source code in
  the repository; its serial output path is embedded directly, with machine
  floats modelled as exact rationals.

* The spatialiser core (spatialization strategies, script parser, event
  scheduler) is distributed in compiled/engine form only: the repository ships
  its user documentation (`src/docs/scripting_reference.md`, the method guide
  and troubleshooting guide) but not the Python sources.  Those components are
  therefore modelled from the specification and the in-repo documentation;
  every such definition carries a doc comment starting `Modelled from the
  spec:`.  Float arithmetic of the engine is modelled over `ℝ` (exact reals),
  script/parser data over `ℚ` and `ℕ`.
-/

/-! ## Part 1 — Sensor firmware (`src/teensycode/teensycode.ino`)

The firmware reads 16 FSR sensors, normalizes each raw ADC reading to
`[0.0, 1.0]`, and prints one comma-separated line per loop iteration, each
value with two decimal places.  `setup()` first prints the banner line
`THAWNEY LTD FSR BOARD`. -/

/-- Constant `numSensors` from the firmware: the number of FSR sensors read per loop. -/
def numSensors : ℕ := 16

/-- Constant `adcResolution` from the firmware: full-scale 12-bit ADC reading. -/
def adcResolution : ℕ := 4095

/-- The clamp `constrain(v, 0.0, 1.0)` as used in the firmware loop. -/
def constrain01 (q : ℚ) : ℚ := min 1 (max 0 q)

/-- The firmware normalization
`normalizedValue = constrain((float)rawValue / adcResolution, 0.0, 1.0)`,
from the firmware loop, with the float division modelled exactly. -/
def normalizedValue (raw : ℕ) : ℚ := constrain01 ((raw : ℚ) / (adcResolution : ℚ))

/-- The integer `0 ≤ k` such that `Serial.print(q, 2)` prints `k` hundredths:
Arduino `Print::printFloat` adds `0.005` and truncates, so for `q ≥ 0` the
printed number is `⌊100·q + 1/2⌋ / 100`.  With `q = n/d` (`d > 0`) this floor
is the integer floor division `(200·n + d) / (2·d)`. -/
def printedHundredths (q : ℚ) : ℤ := (200 * q.num + (q.den : ℤ)) / (2 * (q.den : ℤ))

/-- The exact rational value printed by `Serial.print(q, 2)` for `q ≥ 0`. -/
def printedValue2 (q : ℚ) : ℚ := (printedHundredths q : ℚ) / 100

/-- The 16 values printed on one data line, for raw ADC readings `raws`. -/
def sensorValues (raws : Fin numSensors → ℕ) : List ℚ :=
  (List.finRange numSensors).map (fun i => printedValue2 (normalizedValue (raws i)))

/-- A decimal digit character, as produced by Arduino integer printing. -/
def digitCh (d : ℕ) : Char := Char.ofNat (48 + d % 10)

/-- The four characters printed for a value of `m` hundredths (`m ≤ 100`):
integer part, decimal point, then exactly two fractional digits — the shape
produced by `Serial.print(value, 2)` for values in `[0, 1]`. -/
def fmtValChars (m : ℕ) : List Char :=
  [digitCh (m / 100), '.', digitCh (m % 100 / 10), digitCh (m % 10)]

/-- Join printed values with a comma after every value except the last —
the firmware prints `","` exactly when `i < numSensors - 1`. -/
def joinComma : List (List Char) → List Char
  | [] => []
  | [x] => x
  | x :: y :: xs => x ++ ',' :: joinComma (y :: xs)

/-- The characters of one serial data line for raw readings `raws`. -/
def dataLineChars (raws : Fin numSensors → ℕ) : List Char :=
  joinComma ((List.finRange numSensors).map
    (fun i => fmtValChars (printedHundredths (normalizedValue (raws i))).toNat))

/-- The startup banner printed by `setup()` before any data line. -/
def bannerChars : List Char := "THAWNEY LTD FSR BOARD".data

/-- The whole serial stream, one entry per line: the `setup()` banner first,
then one data line per loop iteration (`runs` lists the raw readings of the
successive iterations). -/
def serialStream (runs : List (Fin numSensors → ℕ)) : List (List Char) :=
  bannerChars :: runs.map dataLineChars

/-- A character list ends in a decimal digit. -/
def endsDigit (l : List Char) : Prop :=
  ∃ c, l.getLast? = some c ∧ c.isDigit = true

/-! ## Part 2 — Spatialiser core data model

The Python engine itself is absent from the repository snapshot; the
definitions below are modelled from the specification (§3, §4.2) and the
in-repo documentation (`src/docs/scripting_reference.md`, the method guide).
Engine float arithmetic is modelled exactly over `ℝ`. -/

/-- Modelled from the spec: a `Speaker` record (missing Python class) —
channel number and an (x, y) position in meters (§3); the optional label is
irrelevant to gain computation and omitted. -/
structure Speaker where
  channel : ℕ
  x : ℚ
  y : ℚ
  deriving DecidableEq, Repr

/-- Modelled from the spec: a `SpeakerLayout` (missing Python class) is an
ordered collection of speakers (§3). -/
abbrev SpeakerLayout : Type := List Speaker

/-- Modelled from the spec: the `RuntimeConfig` snapshot of tunables (§3),
including the tactile-grid-specific parameters. -/
structure RuntimeConfig where
  itd_exaggeration : ℚ
  ild_exponent : ℚ
  tone_duration : ℚ
  fade_duration : ℚ
  tactile_exaggeration : ℚ
  distance_rolloff : ℚ
  use_gaussian : Bool
  gaussian_sigma : ℚ
  max_active_speakers : ℕ
  smooth_min_distance : ℚ
  distance_power : ℚ
  tactile_enhancement : ℚ
  deriving DecidableEq, Repr

/-- Modelled from the spec: the default values of every `RuntimeConfig` key
(§6 table of configuration assignments and §4.2 strategy parameters):
`itd_exaggeration = 1.0`, `ild_exponent = 1.0`, `tone_duration = 0.1`,
`fade_duration = 0.05`, `tactile_exaggeration = 4.0`, `distance_rolloff = 2.0`,
`use_gaussian = false`, `gaussian_sigma = 0.025`, `max_active_speakers = 6`,
`smooth_min_distance = 0.008`, `distance_power = 1.5`,
`tactile_enhancement = 1.2`. -/
def defaultConfig : RuntimeConfig where
  itd_exaggeration := 1
  ild_exponent := 1
  tone_duration := 1/10
  fade_duration := 1/20
  tactile_exaggeration := 4
  distance_rolloff := 2
  use_gaussian := false
  gaussian_sigma := 1/40
  max_active_speakers := 6
  smooth_min_distance := 1/125
  distance_power := 3/2
  tactile_enhancement := 6/5

/-- Squared Euclidean distance from a source position to a speaker. -/
def distSq (pos : ℚ × ℚ) (s : Speaker) : ℚ :=
  (s.x - pos.1) ^ 2 + (s.y - pos.2) ^ 2

/-- Euclidean distance from a source position to a speaker. -/
noncomputable def dist (pos : ℚ × ℚ) (s : Speaker) : ℝ :=
  Real.sqrt ((distSq pos s : ℚ) : ℝ)

/-- Modelled from the spec: the minimum epsilon to which every distance is
clamped before being used as a divisor (§4.2 common contract; the exact float
constant of the missing engine is not recorded — the troubleshooting guide
mentions a pre-existing 1 mm minimum distance, used here). -/
def minDistance : ℚ := 1/1000

/-- Distance clamped from below to `minDistance`, as used wherever a strategy
divides by a distance (§4.2: "All distance calculations clamp distance to a
minimum epsilon to avoid division by zero"). -/
noncomputable def clampDist (pos : ℚ × ℚ) (s : Speaker) : ℝ :=
  max (dist pos s) ((minDistance : ℚ) : ℝ)

/-- Sum of squared entries of a gain vector. -/
noncomputable def sumSq (l : List ℝ) : ℝ := (l.map (fun x => x ^ 2)).sum

/-! ### distance_pan -/

/-- Modelled from the spec: the raw `distance_pan` weight of one speaker
(missing engine function): `1 / distance ^ distance_rolloff` with the clamped
distance (§4.2). -/
noncomputable def dpWeight (cfg : RuntimeConfig) (pos : ℚ × ℚ) (s : Speaker) : ℝ :=
  1 / clampDist pos s ^ ((cfg.distance_rolloff : ℚ) : ℝ)

/-- Modelled from the spec: the `distance_pan` gain of one speaker — the raw
weight vector normalized so the sum of squares equals 1 (§4.2). -/
noncomputable def dpGain (cfg : RuntimeConfig) (layout : SpeakerLayout)
    (pos : ℚ × ℚ) (s : Speaker) : ℝ :=
  dpWeight cfg pos s / Real.sqrt (sumSq (layout.map (dpWeight cfg pos)))

/-- The `distance_pan` gain vector, in layout (channel enumeration) order. -/
noncomputable def dpGainVec (cfg : RuntimeConfig) (layout : SpeakerLayout)
    (pos : ℚ × ℚ) : List ℝ :=
  layout.map (dpGain cfg layout pos)

/-! ### tactile_grid -/

/-- Modelled from the spec: the raw `tactile_grid` weight of a selected
speaker (missing engine function): `1 / (distance + smooth_min_distance) ^
distance_power`, or `exp(-distance² / (2·gaussian_sigma²))` when
`use_gaussian` is set (§4.2). -/
noncomputable def tgWeight (cfg : RuntimeConfig) (pos : ℚ × ℚ) (s : Speaker) : ℝ :=
  if cfg.use_gaussian then
    Real.exp (-((distSq pos s : ℚ) : ℝ) / (2 * ((cfg.gaussian_sigma : ℚ) : ℝ) ^ 2))
  else
    1 / (dist pos s + ((cfg.smooth_min_distance : ℚ) : ℝ)) ^ ((cfg.distance_power : ℚ) : ℝ)

/-- Speakers sorted by (squared) distance to the source; sorting by squared
distance orders identically to sorting by distance. -/
def sortByDist (pos : ℚ × ℚ) (layout : SpeakerLayout) : List Speaker :=
  List.mergeSort layout (fun a b => decide (distSq pos a ≤ distSq pos b))

/-- Modelled from the spec: the up to `max_active_speakers` nearest speakers
selected by `tactile_grid` (§4.2). -/
def tgSelected (cfg : RuntimeConfig) (pos : ℚ × ℚ) (layout : SpeakerLayout) :
    List Speaker :=
  (sortByDist pos layout).take cfg.max_active_speakers

/-- Sum of the raw weights of the selected speakers. -/
noncomputable def tgWeightSum (cfg : RuntimeConfig) (pos : ℚ × ℚ)
    (layout : SpeakerLayout) : ℝ :=
  ((tgSelected cfg pos layout).map (tgWeight cfg pos)).sum

/-- Modelled from the spec: weight normalized to sum 1 over the selected
speakers, then multiplied by `tactile_enhancement` (§4.2). -/
noncomputable def tgEnhanced (cfg : RuntimeConfig) (pos : ℚ × ℚ)
    (layout : SpeakerLayout) (s : Speaker) : ℝ :=
  ((cfg.tactile_enhancement : ℚ) : ℝ) *
    (tgWeight cfg pos s / tgWeightSum cfg pos layout)

/-- Modelled from the spec: the final `tactile_grid` gain of one speaker —
zero off the selected set, and on it the enhanced weight rescaled so the sum
of squared gains equals 1 (§4.2 power normalization). -/
noncomputable def tgGain (cfg : RuntimeConfig) (layout : SpeakerLayout)
    (pos : ℚ × ℚ) (s : Speaker) : ℝ :=
  if s ∈ tgSelected cfg pos layout then
    tgEnhanced cfg pos layout s /
      Real.sqrt (sumSq ((tgSelected cfg pos layout).map (tgEnhanced cfg pos layout)))
  else 0

/-- The `tactile_grid` gain vector, in layout order. -/
noncomputable def tgGainVec (cfg : RuntimeConfig) (layout : SpeakerLayout)
    (pos : ℚ × ℚ) : List ℝ :=
  layout.map (tgGain cfg layout pos)

/-! ### nearest_neighbor -/

/-- One comparison step of the closest-speaker scan: keep the incumbent
unless the candidate is strictly closer, or equally close with a strictly
lower channel number. -/
def nnPick (pos : ℚ × ℚ) (a b : Speaker) : Speaker :=
  if distSq pos b < distSq pos a ∨
      (distSq pos b = distSq pos a ∧ b.channel < a.channel) then b else a

/-- Modelled from the spec: the single closest speaker chosen by
`nearest_neighbor`, ties broken by lowest channel number (§4.2); on the empty
layout a dummy speaker (the strategy is never invoked there, §7 makes a
zero-speaker layout fatal at construction). -/
def nnBest (pos : ℚ × ℚ) : SpeakerLayout → Speaker
  | [] => ⟨0, 0, 0⟩
  | a :: rest => rest.foldl (nnPick pos) a

/-- Modelled from the spec: `nearest_neighbor` gain — 1.0 for the chosen
closest speaker, 0.0 for every other speaker (§4.2). -/
noncomputable def nnGain (pos : ℚ × ℚ) (layout : SpeakerLayout) (s : Speaker) : ℝ :=
  if s = nnBest pos layout then 1 else 0

/-- The `nearest_neighbor` gain vector, in layout order. -/
noncomputable def nnGainVec (pos : ℚ × ℚ) (layout : SpeakerLayout) : List ℝ :=
  layout.map (nnGain pos layout)

/-! ### vbap -/

/-- Centroid of a layout, used by VBAP angle normalization (§4.1). -/
def centroid (layout : SpeakerLayout) : ℚ × ℚ :=
  (((layout.map Speaker.x).sum) / (layout.length : ℚ),
   ((layout.map Speaker.y).sum) / (layout.length : ℚ))

/-- Angle of point `p` seen from point `c`. -/
noncomputable def angleTo (c p : ℚ × ℚ) : ℝ :=
  Complex.arg ⟨((p.1 - c.1 : ℚ) : ℝ), ((p.2 - c.2 : ℚ) : ℝ)⟩

/-- Angle of a speaker relative to the layout centroid. -/
noncomputable def speakerAngle (layout : SpeakerLayout) (s : Speaker) : ℝ :=
  angleTo (centroid layout) (s.x, s.y)

/-- Fold picking the element maximizing `f` (first maximum kept). -/
noncomputable def argmaxBy (f : Speaker → ℝ) (a : Speaker) (l : List Speaker) : Speaker :=
  l.foldl (fun x y => if f x < f y then y else x) a

/-- Fold picking the element minimizing `f` (first minimum kept). -/
noncomputable def argminBy (f : Speaker → ℝ) (a : Speaker) (l : List Speaker) : Speaker :=
  l.foldl (fun x y => if f y < f x then y else x) a

/-- Modelled from the spec: the two speakers whose angles most tightly
bracket the source angle, with wrap-around at 360° (§4.2 vbap, missing engine
function): the greatest speaker angle at or below the source angle (or the
overall greatest when none is below, by wrap-around) and the least speaker
angle above it (or the overall least, by wrap-around). -/
noncomputable def vbapPair (layout : SpeakerLayout) (pos : ℚ × ℚ) :
    Speaker × Speaker :=
  let f := speakerAngle layout
  let sa := angleTo (centroid layout) pos
  let below := layout.filter (fun s => decide (f s ≤ sa))
  let above := layout.filter (fun s => decide (sa < f s))
  let s1 := match below with
    | [] => match layout with
      | [] => ⟨0, 0, 0⟩
      | a :: r => argmaxBy f a r
    | a :: r => argmaxBy f a r
  let s2 := match above with
    | [] => match layout with
      | [] => ⟨0, 0, 0⟩
      | a :: r => argminBy f a r
    | a :: r => argminBy f a r
  (s1, s2)

/-- Modelled from the spec: the normalized fraction `t` of the source angle
between the two bracketing speaker angles (§4.2 vbap); guarded to 0 when the
bracketing angles coincide. -/
noncomputable def vbapT (layout : SpeakerLayout) (pos : ℚ × ℚ) : ℝ :=
  let f := speakerAngle layout
  let p := vbapPair layout pos
  if f p.2 = f p.1 then 0
  else (angleTo (centroid layout) pos - f p.1) / (f p.2 - f p.1)

/-- Modelled from the spec: vbap gains `sqrt(1−t)` and `sqrt t` on the two
bracketing speakers, 0 elsewhere (§4.2). -/
noncomputable def vbapGain (layout : SpeakerLayout) (pos : ℚ × ℚ) (s : Speaker) : ℝ :=
  let p := vbapPair layout pos
  if s = p.1 then Real.sqrt (1 - vbapT layout pos)
  else if s = p.2 then Real.sqrt (vbapT layout pos)
  else 0

/-! ### itd_ild and strategy dispatch -/

/-- Speed of sound in m/s, used by the ITD formula (§4.2). -/
def speedOfSound : ℚ := 343

/-- Modelled from the spec: the `itd_ild` inter-channel level pair for a
two-speaker layout (missing engine function): the ratio
`(distance_right / distance_left) ^ ild_exponent` distributed onto the two
channels and normalized so total power is conserved (§4.2). -/
noncomputable def ildGainPair (cfg : RuntimeConfig) (pos : ℚ × ℚ)
    (left right : Speaker) : ℝ × ℝ :=
  let r := (clampDist pos right / clampDist pos left) ^ ((cfg.ild_exponent : ℚ) : ℝ)
  (r / Real.sqrt (1 + r ^ 2), 1 / Real.sqrt (1 + r ^ 2))

/-- Modelled from the spec: the inter-channel playback time offset
`ITD = (distance_left − distance_right) / speed_of_sound × itd_exaggeration`
(§4.2). -/
noncomputable def itdTimeOffset (cfg : RuntimeConfig) (pos : ℚ × ℚ)
    (left right : Speaker) : ℝ :=
  (clampDist pos left - clampDist pos right) / ((speedOfSound : ℚ) : ℝ) *
    ((cfg.itd_exaggeration : ℚ) : ℝ)

/-- Errors a strategy can surface (§7): only a degenerate zero-speaker layout
is fatal. -/
inductive ConfigError where
  | emptyLayout
  deriving DecidableEq, Repr

/-- The result of a gain computation: the gain vector in layout order, the
per-channel start-time micro-offset used by `itd_ild` (0 elsewhere), and
whether a non-fatal warning was logged. -/
structure GainResult where
  gains : List ℝ
  timeOffset : ℝ
  warned : Bool

/-- Modelled from the spec: the closed tagged variant of the five
spatialization algorithms (§9 design notes). -/
inductive Method where
  | tactile_grid
  | vbap
  | distance_pan
  | nearest_neighbor
  | itd_ild
  deriving DecidableEq, Repr

/-- Modelled from the spec: `computeGains(position)` of the missing engine —
deterministic, pure dispatch over the five strategies (§4.2).  A zero-speaker
layout is a fatal `ConfigError` (§7); `itd_ild` on a layout whose speaker
count is not exactly two transparently delegates to `distance_pan`,
non-fatally, recording the logged warning (§4.2, §7).  For `itd_ild` on two
speakers the lower channel is designated left. -/
noncomputable def computeGains (m : Method) (cfg : RuntimeConfig)
    (layout : SpeakerLayout) (pos : ℚ × ℚ) : Except ConfigError GainResult :=
  if layout = ([] : List Speaker) then .error .emptyLayout
  else
    match m with
    | .tactile_grid => .ok ⟨tgGainVec cfg layout pos, 0, false⟩
    | .vbap => .ok ⟨layout.map (vbapGain layout pos), 0, false⟩
    | .distance_pan => .ok ⟨dpGainVec cfg layout pos, 0, false⟩
    | .nearest_neighbor => .ok ⟨nnGainVec pos layout, 0, false⟩
    | .itd_ild =>
      match layout with
      | [a, b] =>
        let left := if a.channel ≤ b.channel then a else b
        let right := if a.channel ≤ b.channel then b else a
        let g := ildGainPair cfg pos left right
        .ok ⟨[if a.channel ≤ b.channel then g.1 else g.2,
              if a.channel ≤ b.channel then g.2 else g.1],
             itdTimeOffset cfg pos left right, false⟩
      | other => .ok ⟨dpGainVec cfg other pos, 0, true⟩

/-! ## Part 3 — EventScheduler / Interpreter

Modelled from the spec (§4.4) and `src/docs/scripting_reference.md`: the
interpreter walks the command list in file order, keeping a running clock, a
cursor and the current `RuntimeConfig` snapshot, and expands each command into
timestamped tone events.  Script numerals are exact rationals. -/

/-- Modelled from the spec: the assignable `RuntimeConfig` keys (§3, §6) —
the numeric tunables settable by a `key = value` script line. -/
inductive ConfigKey where
  | itd_exaggeration
  | ild_exponent
  | tone_duration
  | fade_duration
  | tactile_exaggeration
  | distance_rolloff
  | gaussian_sigma
  | smooth_min_distance
  | distance_power
  | tactile_enhancement
  deriving DecidableEq, Repr

/-- Apply one configuration assignment, producing a new snapshot (the record
update never mutates the old value). -/
def RuntimeConfig.setKey (cfg : RuntimeConfig) : ConfigKey → ℚ → RuntimeConfig
  | .itd_exaggeration, v => { cfg with itd_exaggeration := v }
  | .ild_exponent, v => { cfg with ild_exponent := v }
  | .tone_duration, v => { cfg with tone_duration := v }
  | .fade_duration, v => { cfg with fade_duration := v }
  | .tactile_exaggeration, v => { cfg with tactile_exaggeration := v }
  | .distance_rolloff, v => { cfg with distance_rolloff := v }
  | .gaussian_sigma, v => { cfg with gaussian_sigma := v }
  | .smooth_min_distance, v => { cfg with smooth_min_distance := v }
  | .distance_power, v => { cfg with distance_power := v }
  | .tactile_enhancement, v => { cfg with tactile_enhancement := v }

/-- Mode `MODE=STRAIGHT` (default) or `MODE=CURVED` of `ARC`/`PATH_FREQ_RAMP`. -/
inductive PathMode where
  | straight
  | curved
  deriving DecidableEq, Repr

/-- Linear interpolation between two points: `p + t·(q − p)` (§4.4). -/
def interpPoint (p q : ℚ × ℚ) (t : ℚ) : ℚ × ℚ :=
  (p.1 + t * (q.1 - p.1), p.2 + t * (q.2 - p.2))

/-- Quadratic Bézier through control point `p2`:
`(1−t)²·p1 + 2(1−t)t·p2 + t²·p3` (§4.4). -/
def bezier2 (p1 p2 p3 : ℚ × ℚ) (t : ℚ) : ℚ × ℚ :=
  ((1 - t) ^ 2 * p1.1 + 2 * (1 - t) * t * p2.1 + t ^ 2 * p3.1,
   (1 - t) ^ 2 * p1.2 + 2 * (1 - t) * t * p2.2 + t ^ 2 * p3.2)

/-- Modelled from the spec: position interpolation of `ARC`/`PATH_FREQ_RAMP`
(§4.4 and `scripting_reference.md` §6 Point Interpretation): with 2 points,
linear interpolation — `MODE=CURVED` is ignored and falls back to STRAIGHT;
with 3 points, STRAIGHT interpolates p1→p3 ignoring the middle point and
CURVED is the quadratic Bézier.  Other point counts are rejected by the
parser. -/
def pathPos (pts : List (ℚ × ℚ)) (mode : PathMode) (t : ℚ) : ℚ × ℚ :=
  match pts, mode with
  | [p1, p2], _ => interpPoint p1 p2 t
  | [p1, _, p3], .straight => interpPoint p1 p3 t
  | [p1, p2, p3], .curved => bezier2 p1 p2 p3 t
  | _, _ => (0, 0)

/-- Modelled from the spec: the interpolation fraction of step `i`,
`frac = i/(STEPS−1)`, or 0 if `STEPS = 1` (§4.4). -/
def stepFrac (steps i : ℕ) : ℚ :=
  if steps ≤ 1 then 0 else (i : ℚ) / ((steps : ℚ) - 1)

/-- The discrete sequence of interpolated positions of an `ARC` or
`PATH_FREQ_RAMP` with `STEPS` steps. -/
def pathPositions (pts : List (ℚ × ℚ)) (mode : PathMode) (steps : ℕ) :
    List (ℚ × ℚ) :=
  (List.range steps).map (fun i => pathPos pts mode (stepFrac steps i))

/-- Frequency interpolates linearly in Hz using the same fraction (§4.4). -/
def freqAt (f0 f1 t : ℚ) : ℚ := f0 + t * (f1 - f0)

/-- Modelled from the spec: the trajectory data of a continuous
`TrajectoryTone` (§4.4), defunctionalized so events stay comparable: a
`CIRCLE_SMOOTH` circle around a center, or a `FREQ_RAMP_SMOOTH` linear
frequency ramp at a fixed position. -/
inductive TrajectoryKind where
  | circle (center : ℚ × ℚ) (radius freq : ℚ)
  | freqRamp (p : ℚ × ℚ) (f0 f1 : ℚ)
  deriving DecidableEq, Repr

/-- The two shapes of a `ToneEvent` (§3): a discrete `FixedTone` burst, or a
continuous `TrajectoryTone` with an internal resolution hint. -/
inductive ToneShape where
  | fixed (p : ℚ × ℚ) (freq : ℚ)
  | trajectory (k : TrajectoryKind) (resolution : ℕ)
  deriving DecidableEq, Repr

/-- Modelled from the spec: a `ToneEvent` (§3) — absolute start time,
duration, amplitude, fade length, shape, and the frozen `RuntimeConfig`
snapshot captured at enqueue time. -/
structure ToneEvent where
  start : ℚ
  duration : ℚ
  amp : ℚ
  fade : ℚ
  shape : ToneShape
  cfg : RuntimeConfig
  deriving DecidableEq, Repr

/-- Modelled from the spec: interpreter state (§4.4) — running clock,
cursor (updated only by `JUMP`, initial `(0,0)`), and current
`RuntimeConfig` snapshot. -/
structure InterpState where
  t : ℚ
  cursor : ℚ × ℚ
  cfg : RuntimeConfig
  deriving DecidableEq, Repr

/-- Fade length of an event: `fade_duration` clamped so fade ≤ half the
duration (§4.4 SOUND). -/
def fadeFor (cfg : RuntimeConfig) (dur : ℚ) : ℚ :=
  min cfg.fade_duration (dur / 2)

/-- Modelled from the spec: the `ScriptCommand` tagged variant (§3), with
numerals as exact rationals. -/
inductive Cmd where
  | wait (seconds : ℚ)
  | jump (p : ℚ × ℚ)
  | sound (p : ℚ × ℚ) (freq amp : ℚ)
  | arc (pts : List (ℚ × ℚ)) (mode : PathMode) (duration : ℚ) (steps : ℕ)
      (freq amp : ℚ)
  | circleSmooth (radius duration : ℚ) (steps : ℕ) (freq amp : ℚ)
  | freqRamp (p : ℚ × ℚ) (f0 f1 duration : ℚ) (steps : ℕ) (amp : ℚ)
  | freqRampSmooth (p : ℚ × ℚ) (f0 f1 duration amp : ℚ)
  | pathFreqRamp (pts : List (ℚ × ℚ)) (mode : PathMode) (f0 f1 duration : ℚ)
      (steps : ℕ) (amp : ℚ)
  | configAssign (k : ConfigKey) (v : ℚ)
  deriving DecidableEq, Repr

/-- Modelled from the spec: one step of the interpreter (§4.4) — execute one
command from a state, returning the next state and the tone events enqueued
by the command, each carrying the current config snapshot.  `WAIT` advances
the clock; `JUMP` moves the cursor; `SOUND` enqueues one `FixedTone` of
length `tone_duration`; `ARC`/`FREQ_RAMP`/`PATH_FREQ_RAMP` split `DURATION`
into `STEPS` bursts at interpolated positions/frequencies;
`CIRCLE_SMOOTH`/`FREQ_RAMP_SMOOTH` enqueue one `TrajectoryTone`;
`ConfigAssign` replaces the config snapshot and enqueues nothing. -/
def stepCmd (st : InterpState) : Cmd → InterpState × List ToneEvent
  | .wait s => ({ st with t := st.t + s }, [])
  | .jump p => ({ st with cursor := p }, [])
  | .sound p f a =>
      ({ st with t := st.t + st.cfg.tone_duration },
       [⟨st.t, st.cfg.tone_duration, a, fadeFor st.cfg st.cfg.tone_duration,
         .fixed p f, st.cfg⟩])
  | .arc pts mode dur steps f a =>
      ({ st with t := st.t + dur },
       (List.range steps).map (fun (i : ℕ) =>
         ⟨st.t + (i : ℚ) * (dur / (steps : ℚ)), dur / (steps : ℚ), a,
          fadeFor st.cfg (dur / (steps : ℚ)),
          .fixed (pathPos pts mode (stepFrac steps i)) f, st.cfg⟩))
  | .circleSmooth r dur steps f a =>
      ({ st with t := st.t + dur },
       [⟨st.t, dur, a, fadeFor st.cfg dur,
         .trajectory (.circle (0, 0) r f) steps, st.cfg⟩])
  | .freqRamp p f0 f1 dur steps a =>
      ({ st with t := st.t + dur },
       (List.range steps).map (fun (i : ℕ) =>
         ⟨st.t + (i : ℚ) * (dur / (steps : ℚ)), dur / (steps : ℚ), a,
          fadeFor st.cfg (dur / (steps : ℚ)),
          .fixed p (freqAt f0 f1 (stepFrac steps i)), st.cfg⟩))
  | .freqRampSmooth p f0 f1 dur a =>
      ({ st with t := st.t + dur },
       [⟨st.t, dur, a, fadeFor st.cfg dur,
         .trajectory (.freqRamp p f0 f1) 0, st.cfg⟩])
  | .pathFreqRamp pts mode f0 f1 dur steps a =>
      ({ st with t := st.t + dur },
       (List.range steps).map (fun (i : ℕ) =>
         ⟨st.t + (i : ℚ) * (dur / (steps : ℚ)), dur / (steps : ℚ), a,
          fadeFor st.cfg (dur / (steps : ℚ)),
          .fixed (pathPos pts mode (stepFrac steps i))
            (freqAt f0 f1 (stepFrac steps i)), st.cfg⟩))
  | .configAssign k v => ({ st with cfg := st.cfg.setKey k v }, [])

/-- Run the interpreter over a command list in file order, concatenating the
enqueued events (§4.4). -/
def runCmds (st : InterpState) : List Cmd → InterpState × List ToneEvent
  | [] => (st, [])
  | c :: cs =>
      let r := stepCmd st c
      let rest := runCmds r.1 cs
      (rest.1, r.2 ++ rest.2)

/-- Initial interpreter state: clock 0, cursor `(0,0)`, default config. -/
def initState : InterpState := ⟨0, (0, 0), defaultConfig⟩

/-- The fixed position of a discrete event, if it is one. -/
def eventFixedPos (e : ToneEvent) : Option (ℚ × ℚ) :=
  match e.shape with
  | .fixed p _ => some p
  | .trajectory _ _ => none

/-! ## Part 4 — ScriptParser

Modelled from the spec (§4.3, §6) and `src/docs/scripting_reference.md`:
line-oriented; blank lines and `#` comments ignored; `key = value` lines are
configuration assignments; otherwise the first token selects a command with
positional `x,y` point pairs and order-insensitive `KEY=value` parameters.
Parsing is fail-fast: the whole script aborts on the first erroneous line,
reported with its 1-based line number.  Numeric literals are kept as decimal
records so that parsing is fully executable. -/

/-- A parsed decimal literal: sign, integer part, fractional digits value and
fractional digit count; e.g. `-0.02` is `⟨true, 0, 2, 2⟩`. -/
structure DecLit where
  neg : Bool
  intPart : ℕ
  fracPart : ℕ
  fracDigits : ℕ
  deriving DecidableEq, Repr

/-- The exact rational value of a decimal literal. -/
def DecLit.toRat (d : DecLit) : ℚ :=
  (if d.neg then -1 else 1) *
    ((d.intPart : ℚ) + (d.fracPart : ℚ) / ((10 : ℚ) ^ d.fracDigits))

/-- Modelled from the spec: the `ParseError` kinds (§4.3, §7) — an
unparsable numeric literal, a missing required key, or an otherwise
malformed line. -/
inductive ParseErr where
  | badNumber
  | missingKey (key : List Char)
  | malformed
  deriving DecidableEq, Repr

/-- Split a character list on a separator character. -/
def splitOnChar (sep : Char) (l : List Char) : List (List Char) :=
  l.foldr (fun c acc =>
    if c = sep then [] :: acc
    else
      match acc with
      | [] => [[c]]
      | a :: rest => (c :: a) :: rest) [[]]

/-- Truncate a line at its first `#`: both full-line and trailing comments
are ignored (the repo demo scripts rely on trailing comments). -/
def stripComment (l : List Char) : List Char :=
  l.takeWhile (fun c => c != '#')

/-- Map tabs and carriage returns to plain spaces before tokenizing. -/
def normWs (l : List Char) : List Char :=
  l.map (fun c => if c = '\t' ∨ c = '\r' then ' ' else c)

/-- Drop every space directly following `prev = ','`, keeping other
characters and tracking the last kept character. -/
def squashAux (prev : Char) : List Char → List Char
  | [] => []
  | c :: rest =>
      if prev = ',' ∧ c = ' ' then squashAux prev rest
      else c :: squashAux c rest

/-- Collapse spaces directly after a comma, so that point pairs written
`x, y` (as in the repo demo scripts and the `JUMP` example of the scripting
reference) tokenize as a single `x,y` token. -/
def squashCommaSpace : List Char → List Char
  | [] => []
  | c :: rest => c :: squashAux c rest

/-- Decidable equality of parse results. -/
instance {ε α : Type} [DecidableEq ε] [DecidableEq α] :
    DecidableEq (Except ε α) := fun x y =>
  match x, y with
  | .ok a, .ok b =>
      if h : a = b then isTrue (by rw [h])
      else isFalse (fun hh => h (Except.ok.inj hh))
  | .ok _, .error _ => isFalse Except.noConfusion
  | .error _, .ok _ => isFalse Except.noConfusion
  | .error a, .error b =>
      if h : a = b then isTrue (by rw [h])
      else isFalse (fun hh => h (Except.error.inj hh))

/-- Whitespace tokens of a cleaned line. -/
def tokensOf (raw : List Char) : List (List Char) :=
  (splitOnChar ' ' (squashCommaSpace (normWs (stripComment raw)))).filter
    (fun t => !t.isEmpty)

/-- Parse a nonempty all-digit character list. -/
def parseDigits (l : List Char) : Option ℕ :=
  if l.isEmpty then none
  else if l.all Char.isDigit then
    some (l.foldl (fun n c => 10 * n + (c.toNat - 48)) 0)
  else none

/-- Parse an unsigned decimal literal: digits with an optional single point
and fractional digits. -/
def parseUnsignedDec (l : List Char) : Option DecLit :=
  match splitOnChar '.' l with
  | [i] => (parseDigits i).map (fun n => ⟨false, n, 0, 0⟩)
  | [i, f] =>
      match parseDigits i, parseDigits f with
      | some n, some m => some ⟨false, n, m, f.length⟩
      | _, _ => none
  | _ => none

/-- Parse a decimal literal with optional leading sign. -/
def parseDecLit (l : List Char) : Option DecLit :=
  match l with
  | '-' :: rest => (parseUnsignedDec rest).map (fun d => { d with neg := true })
  | '+' :: rest => parseUnsignedDec rest
  | _ => parseUnsignedDec l

/-- Parse an `x,y` point token: a comma-less token is malformed, a point
with an unparsable coordinate is a bad numeric literal (§4.3). -/
def parsePoint (l : List Char) : Except ParseErr (DecLit × DecLit) :=
  match splitOnChar ',' l with
  | [a, b] =>
      match parseDecLit a, parseDecLit b with
      | some x, some y => .ok (x, y)
      | _, _ => .error .badNumber
  | _ => .error .malformed

/-- Parse the positional point tokens of `ARC`/`PATH_FREQ_RAMP`. -/
def parsePointList : List (List Char) → Except ParseErr (List (DecLit × DecLit))
  | [] => .ok []
  | t :: ts => do
      let p ← parsePoint t
      let ps ← parsePointList ts
      .ok (p :: ps)

/-- Split a `KEY=value` token at its first `=`. -/
def splitKeyVal (l : List Char) : List Char × List Char :=
  (l.takeWhile (fun c => c != '='), (l.dropWhile (fun c => c != '=')).drop 1)

/-- Fetch a required numeric key: absence is a missing-key error, an
unparsable value a bad numeric literal (§4.3). -/
def getKeyDec (kvs : List (List Char × List Char)) (k : List Char) :
    Except ParseErr DecLit :=
  match kvs.lookup k with
  | none => .error (.missingKey k)
  | some v =>
      match parseDecLit v with
      | none => .error .badNumber
      | some d => .ok d

/-- Fetch a required integer key (`STEPS`). -/
def getKeyNat (kvs : List (List Char × List Char)) (k : List Char) :
    Except ParseErr ℕ :=
  match kvs.lookup k with
  | none => .error (.missingKey k)
  | some v =>
      match parseDigits v with
      | none => .error .badNumber
      | some n => .ok n

/-- Fetch a required point key (`POS`). -/
def getKeyPoint (kvs : List (List Char × List Char)) (k : List Char) :
    Except ParseErr (DecLit × DecLit) :=
  match kvs.lookup k with
  | none => .error (.missingKey k)
  | some v => parsePoint v

/-- Fetch the optional `MODE` key, defaulting to STRAIGHT. -/
def getMode (kvs : List (List Char × List Char)) : Except ParseErr PathMode :=
  match kvs.lookup ("MODE".data) with
  | none => .ok .straight
  | some v =>
      if v = "STRAIGHT".data then .ok .straight
      else if v = "CURVED".data then .ok .curved
      else .error .malformed

/-- The assignable configuration key named by a token, if any (§3, §6). -/
def configKeyOf (k : List Char) : Option ConfigKey :=
  if k = "itd_exaggeration".data then some .itd_exaggeration
  else if k = "ild_exponent".data then some .ild_exponent
  else if k = "tone_duration".data then some .tone_duration
  else if k = "fade_duration".data then some .fade_duration
  else if k = "tactile_exaggeration".data then some .tactile_exaggeration
  else if k = "distance_rolloff".data then some .distance_rolloff
  else if k = "gaussian_sigma".data then some .gaussian_sigma
  else if k = "smooth_min_distance".data then some .smooth_min_distance
  else if k = "distance_power".data then some .distance_power
  else if k = "tactile_enhancement".data then some .tactile_enhancement
  else none

/-- Modelled from the spec: a parsed `ScriptCommand` (§3), carrying decimal
literals exactly as parsed. -/
inductive PCmd where
  | wait (seconds : DecLit)
  | jump (p : DecLit × DecLit)
  | sound (p : DecLit × DecLit) (freq amp : DecLit)
  | arc (pts : List (DecLit × DecLit)) (mode : PathMode) (duration : DecLit)
      (steps : ℕ) (freq amp : DecLit)
  | circleSmooth (radius duration : DecLit) (steps : ℕ) (freq amp : DecLit)
  | freqRamp (p : DecLit × DecLit) (f0 f1 duration : DecLit) (steps : ℕ)
      (amp : DecLit)
  | freqRampSmooth (p : DecLit × DecLit) (f0 f1 duration amp : DecLit)
  | pathFreqRamp (pts : List (DecLit × DecLit)) (mode : PathMode)
      (f0 f1 duration : DecLit) (steps : ℕ) (amp : DecLit)
  | configAssign (k : ConfigKey) (v : DecLit)
  deriving DecidableEq, Repr

/-- Modelled from the spec: parse one command line (§4.3, §6): the first
token selects the command; the remaining tokens are positional point pairs
and `KEY=value` parameters; required keys per the §6 table.  `ARC` and
`PATH_FREQ_RAMP` take 2 or 3 points; per the scripting reference,
`MODE=CURVED` with only 2 points is accepted (it falls back to STRAIGHT at
interpolation time) — the repo demo scripts use exactly that form. -/
def parseCommandToks (head : List Char) (args : List (List Char)) :
    Except ParseErr (Option PCmd) :=
  let kvs := (args.filter (fun t => t.contains '=')).map splitKeyVal
  let posToks := args.filter (fun t => !(t.contains '='))
  if head = "WAIT".data then
    match posToks with
    | [t] =>
        match parseDecLit t with
        | some d => .ok (some (.wait d))
        | none => .error .badNumber
    | _ => .error .malformed
  else if head = "JUMP".data then
    match posToks with
    | [t] => do
        let p ← parsePoint t
        .ok (some (.jump p))
    | _ => .error .malformed
  else if head = "SOUND".data then
    match posToks with
    | [t] => do
        let p ← parsePoint t
        let f ← getKeyDec kvs ("FREQ".data)
        let a ← getKeyDec kvs ("AMP".data)
        .ok (some (.sound p f a))
    | _ => .error .malformed
  else if head = "ARC".data then do
    let pts ← parsePointList posToks
    if pts.length = 2 ∨ pts.length = 3 then do
      let dur ← getKeyDec kvs ("DURATION".data)
      let steps ← getKeyNat kvs ("STEPS".data)
      let f ← getKeyDec kvs ("FREQ".data)
      let a ← getKeyDec kvs ("AMP".data)
      let m ← getMode kvs
      .ok (some (.arc pts m dur steps f a))
    else .error .malformed
  else if head = "CIRCLE_SMOOTH".data then do
    let r ← getKeyDec kvs ("RADIUS".data)
    let dur ← getKeyDec kvs ("DURATION".data)
    let steps ← getKeyNat kvs ("STEPS".data)
    let f ← getKeyDec kvs ("FREQ".data)
    let a ← getKeyDec kvs ("AMP".data)
    .ok (some (.circleSmooth r dur steps f a))
  else if head = "FREQ_RAMP".data then do
    let p ← getKeyPoint kvs ("POS".data)
    let f0 ← getKeyDec kvs ("START_FREQ".data)
    let f1 ← getKeyDec kvs ("END_FREQ".data)
    let dur ← getKeyDec kvs ("DURATION".data)
    let steps ← getKeyNat kvs ("STEPS".data)
    let a ← getKeyDec kvs ("AMP".data)
    .ok (some (.freqRamp p f0 f1 dur steps a))
  else if head = "FREQ_RAMP_SMOOTH".data then do
    let p ← getKeyPoint kvs ("POS".data)
    let f0 ← getKeyDec kvs ("START_FREQ".data)
    let f1 ← getKeyDec kvs ("END_FREQ".data)
    let dur ← getKeyDec kvs ("DURATION".data)
    let a ← getKeyDec kvs ("AMP".data)
    .ok (some (.freqRampSmooth p f0 f1 dur a))
  else if head = "PATH_FREQ_RAMP".data then do
    let pts ← parsePointList posToks
    if pts.length = 2 ∨ pts.length = 3 then do
      let f0 ← getKeyDec kvs ("START_FREQ".data)
      let f1 ← getKeyDec kvs ("END_FREQ".data)
      let dur ← getKeyDec kvs ("DURATION".data)
      let steps ← getKeyNat kvs ("STEPS".data)
      let a ← getKeyDec kvs ("AMP".data)
      let m ← getMode kvs
      .ok (some (.pathFreqRamp pts m f0 f1 dur steps a))
    else .error .malformed
  else .error .malformed

/-- Modelled from the spec: parse one script line (§4.3): blank and comment
lines yield nothing; a `key = value` line is a configuration assignment;
otherwise the first token selects a command. -/
def parseLine (raw : List Char) : Except ParseErr (Option PCmd) :=
  match tokensOf raw with
  | [] => .ok none
  | [k, eqTok, v] =>
      if eqTok = "=".data then
        match configKeyOf k with
        | some key =>
            match parseDecLit v with
            | some d => .ok (some (.configAssign key d))
            | none => .error .badNumber
        | none => .error .malformed
      else parseCommandToks k [eqTok, v]
  | k :: args => parseCommandToks k args

/-- Modelled from the spec: fail-fast line-by-line parsing (§4.3): the first
erroneous line aborts the whole parse, tagged with its line number `n`
onwards; no commands are produced on failure. -/
def parseLines (n : ℕ) : List (List Char) → Except (ℕ × ParseErr) (List PCmd)
  | [] => .ok []
  | l :: ls =>
      match parseLine l with
      | .error e => .error (n, e)
      | .ok none => parseLines (n + 1) ls
      | .ok (some c) =>
          match parseLines (n + 1) ls with
          | .error e => .error e
          | .ok cs => .ok (c :: cs)

/-- Parse a whole script text, line numbers starting at 1. -/
def parseScript (s : String) : Except (ℕ × ParseErr) (List PCmd) :=
  parseLines 1 (splitOnChar '\n' s.data)

/-- The rational value of a parsed point. -/
def pointSem (p : DecLit × DecLit) : ℚ × ℚ := (p.1.toRat, p.2.toRat)

/-- The interpreter-level command denoted by a parsed command. -/
def PCmd.sem : PCmd → Cmd
  | .wait s => .wait s.toRat
  | .jump p => .jump (pointSem p)
  | .sound p f a => .sound (pointSem p) f.toRat a.toRat
  | .arc pts m dur steps f a =>
      .arc (pts.map pointSem) m dur.toRat steps f.toRat a.toRat
  | .circleSmooth r dur steps f a =>
      .circleSmooth r.toRat dur.toRat steps f.toRat a.toRat
  | .freqRamp p f0 f1 dur steps a =>
      .freqRamp (pointSem p) f0.toRat f1.toRat dur.toRat steps a.toRat
  | .freqRampSmooth p f0 f1 dur a =>
      .freqRampSmooth (pointSem p) f0.toRat f1.toRat dur.toRat a.toRat
  | .pathFreqRamp pts m f0 f1 dur steps a =>
      .pathFreqRamp (pts.map pointSem) m f0.toRat f1.toRat dur.toRat steps a.toRat
  | .configAssign k v => .configAssign k v.toRat

/-- Run a whole script: a parse error executes nothing at all (§4.3
fail-fast, no partial execution); otherwise interpret the commands from the
initial state. -/
def runScript (s : String) : List ToneEvent :=
  match parseScript s with
  | .error _ => []
  | .ok cs => (runCmds initState (cs.map PCmd.sem)).2

/-! ### Firmware lemmas -/

theorem constrain01_nonneg (q : ℚ) : 0 ≤ constrain01 q := by
  unfold constrain01
  exact le_min (by norm_num) (le_max_left 0 q)

theorem constrain01_le_one (q : ℚ) : constrain01 q ≤ 1 := min_le_left 1 _

theorem printedHundredths_nonneg {q : ℚ} (h : 0 ≤ q) : 0 ≤ printedHundredths q := by
  unfold printedHundredths
  have hnum : 0 ≤ q.num := Rat.num_nonneg.mpr h
  have hden : (0 : ℤ) < (q.den : ℤ) := Int.natCast_pos.mpr q.pos
  exact Int.ediv_nonneg (by linarith) (by linarith)

theorem printedHundredths_le_100 {q : ℚ} (h : q ≤ 1) : printedHundredths q ≤ 100 := by
  unfold printedHundredths
  have hden : (0 : ℤ) < (q.den : ℤ) := Int.natCast_pos.mpr q.pos
  have hnumden : q.num ≤ (q.den : ℤ) := by
    have h1 : (q.num : ℚ) / (q.den : ℚ) ≤ 1 := by rw [Rat.num_div_den]; exact h
    have h2 : (q.num : ℚ) ≤ (q.den : ℚ) := by
      rw [div_le_one (by exact_mod_cast hden)] at h1
      exact h1
    exact_mod_cast h2
  calc (200 * q.num + (q.den : ℤ)) / (2 * (q.den : ℤ))
      ≤ (201 * (q.den : ℤ)) / (2 * (q.den : ℤ)) :=
        Int.ediv_le_ediv (by linarith) (by linarith)
    _ = 201 / 2 := by
        rw [show (201 : ℤ) * (q.den : ℤ) = (q.den : ℤ) * 201 by ring,
            show (2 : ℤ) * (q.den : ℤ) = (q.den : ℤ) * 2 by ring]
        exact Int.mul_ediv_mul_of_pos 201 2 hden
    _ = 100 := by decide

theorem printedValue2_mem_unit {q : ℚ} (h0 : 0 ≤ q) (h1 : q ≤ 1) :
    0 ≤ printedValue2 q ∧ printedValue2 q ≤ 1 ∧
      ∃ n : ℕ, n ≤ 100 ∧ printedValue2 q = (n : ℚ) / 100 := by
  have hk0 := printedHundredths_nonneg h0
  have hk1 := printedHundredths_le_100 h1
  refine ⟨?_, ?_, (printedHundredths q).toNat, ?_, ?_⟩
  · unfold printedValue2
    positivity
  · unfold printedValue2
    rw [div_le_one (by norm_num)]
    exact_mod_cast hk1
  · omega
  · unfold printedValue2
    congr 1
    exact_mod_cast (Int.toNat_of_nonneg hk0).symm

theorem digitCh_isDigit (d : ℕ) : (digitCh d).isDigit = true := by
  unfold digitCh
  have h : d % 10 < 10 := Nat.mod_lt _ (by norm_num)
  set m := d % 10 with hm
  interval_cases m <;> decide

theorem digitCh_ne_comma (d : ℕ) : digitCh d ≠ ',' := by
  unfold digitCh
  have h : d % 10 < 10 := Nat.mod_lt _ (by norm_num)
  set m := d % 10 with hm
  interval_cases m <;> decide

theorem fmtValChars_count_comma (m : ℕ) : (fmtValChars m).count ',' = 0 := by
  unfold fmtValChars
  simp [List.count_cons, digitCh_ne_comma]

theorem fmtValChars_endsDigit (m : ℕ) : endsDigit (fmtValChars m) :=
  ⟨digitCh (m % 10), rfl, digitCh_isDigit _⟩

theorem fmtValChars_ne_nil (m : ℕ) : fmtValChars m ≠ [] := by
  unfold fmtValChars
  simp

theorem joinComma_count_comma :
    ∀ vs : List (List Char), (∀ v ∈ vs, v.count ',' = 0) →
      (joinComma vs).count ',' = vs.length - 1
  | [], _ => rfl
  | [x], h => by
      simpa [joinComma] using h x (by simp)
  | x :: y :: xs, h => by
      have hx : x.count ',' = 0 := h x (by simp)
      have ih := joinComma_count_comma (y :: xs) (fun v hv => h v (by simp [hv]))
      simp only [joinComma, List.count_append, List.count_cons, hx, ih]
      simp [List.length_cons]

theorem joinComma_endsDigit :
    ∀ vs : List (List Char), vs ≠ [] → (∀ v ∈ vs, endsDigit v) →
      endsDigit (joinComma vs)
  | [], h, _ => absurd rfl h
  | [x], _, h => by simpa [joinComma] using h x (by simp)
  | x :: y :: xs, _, h => by
      have ih := joinComma_endsDigit (y :: xs) (by simp)
        (fun v hv => h v (by simp [hv]))
      obtain ⟨c, hc, hcd⟩ := ih
      refine ⟨c, ?_, hcd⟩
      rcases hj : (joinComma (y :: xs)) with _ | ⟨a, as⟩
      · rw [hj] at hc; simp at hc
      · rw [hj] at hc
        rw [joinComma, hj, List.getLast?_append, List.getLast?_cons_cons, hc]
        rfl

theorem dataLineChars_count_comma (raws : Fin numSensors → ℕ) :
    (dataLineChars raws).count ',' = 15 := by
  unfold dataLineChars
  rw [joinComma_count_comma]
  · simp [numSensors]
  · intro v hv
    simp only [List.mem_map] at hv
    obtain ⟨i, _, rfl⟩ := hv
    exact fmtValChars_count_comma _

/-- C3: every data line the sensor firmware writes over serial carries exactly
16 comma-separated decimal values — 15 commas, ending in a digit rather than a
trailing comma — where each value is the raw ADC reading divided by the ADC
resolution 4095, clamped into `[0, 1]` and printed with two decimal places, so
every emitted value lies in `[0.00, 1.00]` (and is a whole number of
hundredths). -/
theorem fsr_data_line_format (raws : Fin numSensors → ℕ) :
    (sensorValues raws).length = 16 ∧
    (∀ v ∈ sensorValues raws,
        0 ≤ v ∧ v ≤ 1 ∧ ∃ n : ℕ, n ≤ 100 ∧ v = (n : ℚ) / 100) ∧
    (dataLineChars raws).count ',' = 15 ∧
    endsDigit (dataLineChars raws) := by
  refine ⟨?_, ?_, dataLineChars_count_comma raws, ?_⟩
  · simp [sensorValues, numSensors]
  · intro v hv
    simp only [sensorValues, List.mem_map] at hv
    obtain ⟨i, _, rfl⟩ := hv
    exact printedValue2_mem_unit (constrain01_nonneg _) (constrain01_le_one _)
  · unfold dataLineChars
    refine joinComma_endsDigit _ ?_ ?_
    · simp [numSensors]
    · intro v hv
      simp only [List.mem_map] at hv
      obtain ⟨i, _, rfl⟩ := hv
      exact fmtValChars_endsDigit _

/-- Witness for C3 at a concrete sensor reading. -/
theorem fsr_data_line_format_witness :
    (sensorValues (fun _ => 1000)).length = 16 ∧
    (∀ v ∈ sensorValues (fun _ => 1000),
        0 ≤ v ∧ v ≤ 1 ∧ ∃ n : ℕ, n ≤ 100 ∧ v = (n : ℚ) / 100) ∧
    (dataLineChars (fun _ => 1000)).count ',' = 15 ∧
    endsDigit (dataLineChars (fun _ => 1000)) :=
  fsr_data_line_format (fun _ => 1000)

/-- C10: on power-up, before emitting any data line, the firmware writes the
banner `THAWNEY LTD FSR BOARD`; the first line of the serial stream is the
banner, which is not a 16-value comma-separated record (it contains no comma
at all, while every data line contains 15), and every line after it is a data
line in the advertised CSV format. -/
theorem fsr_startup_banner (runs : List (Fin numSensors → ℕ)) :
    (serialStream runs).head? = some bannerChars ∧
    bannerChars.count ',' = 0 ∧
    (∀ raws : Fin numSensors → ℕ, bannerChars ≠ dataLineChars raws) ∧
    ∀ l ∈ (serialStream runs).tail,
      ∃ raws, l = dataLineChars raws ∧ l.count ',' = 15 := by
  refine ⟨rfl, by decide, ?_, ?_⟩
  · intro raws h
    have h15 := dataLineChars_count_comma raws
    rw [← h] at h15
    have h0 : bannerChars.count ',' = 0 := by decide
    omega
  · intro l hl
    simp only [serialStream, List.tail_cons, List.mem_map] at hl
    obtain ⟨raws, _, rfl⟩ := hl
    exact ⟨raws, rfl, dataLineChars_count_comma raws⟩

/-- Witness for C10 at a concrete run of the firmware loop. -/
theorem fsr_startup_banner_witness :
    (serialStream [fun _ => 0, fun _ => 4095]).head? = some bannerChars ∧
    bannerChars.count ',' = 0 ∧
    (∀ raws : Fin numSensors → ℕ, bannerChars ≠ dataLineChars raws) ∧
    ∀ l ∈ (serialStream [fun _ => 0, fun _ => 4095]).tail,
      ∃ raws, l = dataLineChars raws ∧ l.count ',' = 15 :=
  fsr_startup_banner [fun _ => 0, fun _ => 4095]

/-! ### Gain-vector lemmas -/

theorem sumSq_nonneg (l : List ℝ) : 0 ≤ sumSq l := by
  unfold sumSq
  refine List.sum_nonneg ?_
  intro x hx
  simp only [List.mem_map] at hx
  obtain ⟨y, _, rfl⟩ := hx
  exact sq_nonneg y

theorem sumSq_pos {l : List ℝ} (hne : l ≠ []) (h : ∀ x ∈ l, x ≠ 0) :
    0 < sumSq l := by
  unfold sumSq
  refine List.sum_pos _ ?_ (by simpa using hne)
  intro x hx
  simp only [List.mem_map] at hx
  obtain ⟨y, hy, rfl⟩ := hx
  exact lt_of_le_of_ne (sq_nonneg y) (Ne.symm (pow_ne_zero 2 (h y hy)))

theorem sumSq_perm {l₁ l₂ : List ℝ} (h : l₁.Perm l₂) : sumSq l₁ = sumSq l₂ :=
  (h.map _).sum_eq

theorem sumSq_append (a b : List ℝ) : sumSq (a ++ b) = sumSq a + sumSq b := by
  unfold sumSq
  rw [List.map_append, List.sum_append]

/-- Power normalization: dividing a vector of weights by the square root of
its sum of squares yields a vector whose sum of squares is exactly 1. -/
theorem sumSq_map_div_sqrt {α : Type} (w : α → ℝ) (l : List α)
    (h : 0 < sumSq (l.map w)) :
    sumSq (l.map (fun a => w a / Real.sqrt (sumSq (l.map w)))) = 1 := by
  set W := sumSq (l.map w) with hW
  have hsq : Real.sqrt W ^ 2 = W := Real.sq_sqrt h.le
  unfold sumSq
  rw [List.map_map, Function.comp_def]
  have hpt : (fun a => (w a / Real.sqrt W) ^ 2) = fun a => W⁻¹ * w a ^ 2 := by
    funext a
    rw [div_pow, hsq, div_eq_mul_inv, mul_comm]
  rw [hpt, List.sum_map_mul_left, ← Function.comp_def (fun x => x ^ 2) w,
      ← List.map_map]
  have : ((l.map w).map (fun x => x ^ 2)).sum = W := by rw [hW]; rfl
  rw [this]
  exact inv_mul_cancel₀ h.ne'

theorem sumSq_map_smul {α : Type} (c : ℝ) (f : α → ℝ) (l : List α) :
    sumSq (l.map (fun a => c * f a)) = c ^ 2 * sumSq (l.map f) := by
  unfold sumSq
  rw [List.map_map, List.map_map, Function.comp_def, Function.comp_def]
  have hpt : (fun a => (c * f a) ^ 2) = fun a => c ^ 2 * f a ^ 2 := by
    funext a
    ring
  rw [hpt, List.sum_map_mul_left]

theorem minDistance_cast_pos : (0 : ℝ) < ((minDistance : ℚ) : ℝ) := by
  unfold minDistance
  norm_num

theorem dist_nonneg' (pos : ℚ × ℚ) (s : Speaker) : 0 ≤ dist pos s :=
  Real.sqrt_nonneg _

theorem clampDist_ge (pos : ℚ × ℚ) (s : Speaker) :
    ((minDistance : ℚ) : ℝ) ≤ clampDist pos s := le_max_right _ _

theorem clampDist_pos (pos : ℚ × ℚ) (s : Speaker) : 0 < clampDist pos s :=
  lt_of_lt_of_le minDistance_cast_pos (clampDist_ge pos s)

theorem dpWeight_pos (cfg : RuntimeConfig) (pos : ℚ × ℚ) (s : Speaker) :
    0 < dpWeight cfg pos s := by
  unfold dpWeight
  exact one_div_pos.mpr (Real.rpow_pos_of_pos (clampDist_pos pos s) _)

theorem tgWeight_pos (cfg : RuntimeConfig) (pos : ℚ × ℚ) (s : Speaker)
    (hsm : 0 < cfg.smooth_min_distance) : 0 < tgWeight cfg pos s := by
  unfold tgWeight
  split
  · exact Real.exp_pos _
  · refine one_div_pos.mpr (Real.rpow_pos_of_pos ?_ _)
    have h1 : (0 : ℝ) < ((cfg.smooth_min_distance : ℚ) : ℝ) := by
      exact_mod_cast hsm
    have h2 : (0 : ℝ) ≤ dist pos s := dist_nonneg' pos s
    linarith

theorem sortByDist_perm (pos : ℚ × ℚ) (layout : SpeakerLayout) :
    (sortByDist pos layout).Perm layout :=
  List.mergeSort_perm layout _

theorem tgSelected_subset {cfg : RuntimeConfig} {pos : ℚ × ℚ}
    {layout : SpeakerLayout} {s : Speaker} (h : s ∈ tgSelected cfg pos layout) :
    s ∈ layout :=
  (sortByDist_perm pos layout).mem_iff.mp ((List.take_sublist _ _).mem h)

theorem tgSelected_ne_nil {cfg : RuntimeConfig} {pos : ℚ × ℚ}
    {layout : SpeakerLayout} (hne : layout ≠ ([] : List Speaker))
    (hmax : 0 < cfg.max_active_speakers) :
    tgSelected cfg pos layout ≠ [] := by
  unfold tgSelected
  rw [Ne, List.take_eq_nil_iff]
  push_neg
  refine ⟨by omega, ?_⟩
  intro h
  exact hne (List.eq_nil_of_length_eq_zero
    (by rw [← (sortByDist_perm pos layout).length_eq, h]; rfl))

theorem tgWeightSum_pos (cfg : RuntimeConfig) (pos : ℚ × ℚ)
    (layout : SpeakerLayout) (hne : layout ≠ ([] : List Speaker))
    (hmax : 0 < cfg.max_active_speakers)
    (hsm : 0 < cfg.smooth_min_distance) :
    0 < tgWeightSum cfg pos layout := by
  unfold tgWeightSum
  refine List.sum_pos _ ?_ ?_
  · intro x hx
    simp only [List.mem_map] at hx
    obtain ⟨s, _, rfl⟩ := hx
    exact tgWeight_pos cfg pos s hsm
  · simpa using tgSelected_ne_nil hne hmax

theorem tgEnhanced_pos (cfg : RuntimeConfig) (pos : ℚ × ℚ)
    (layout : SpeakerLayout) (s : Speaker)
    (hne : layout ≠ ([] : List Speaker))
    (hmax : 0 < cfg.max_active_speakers)
    (hsm : 0 < cfg.smooth_min_distance)
    (henh : 0 < cfg.tactile_enhancement) :
    0 < tgEnhanced cfg pos layout s := by
  unfold tgEnhanced
  have h1 : (0 : ℝ) < ((cfg.tactile_enhancement : ℚ) : ℝ) := by exact_mod_cast henh
  exact mul_pos h1
    (div_pos (tgWeight_pos cfg pos s hsm) (tgWeightSum_pos cfg pos layout hne hmax hsm))

theorem tgNormalizer_pos (cfg : RuntimeConfig) (pos : ℚ × ℚ)
    (layout : SpeakerLayout) (hne : layout ≠ ([] : List Speaker))
    (hmax : 0 < cfg.max_active_speakers)
    (hsm : 0 < cfg.smooth_min_distance)
    (henh : 0 < cfg.tactile_enhancement) :
    0 < sumSq ((tgSelected cfg pos layout).map (tgEnhanced cfg pos layout)) := by
  refine sumSq_pos ?_ ?_
  · simpa using tgSelected_ne_nil hne hmax
  · intro x hx
    simp only [List.mem_map] at hx
    obtain ⟨s, _, rfl⟩ := hx
    exact (tgEnhanced_pos cfg pos layout s hne hmax hsm henh).ne'

theorem dpNormalizer_pos (cfg : RuntimeConfig) (pos : ℚ × ℚ)
    (layout : SpeakerLayout) (hne : layout ≠ ([] : List Speaker)) :
    0 < sumSq (layout.map (dpWeight cfg pos)) := by
  refine sumSq_pos (by simpa using hne) ?_
  intro x hx
  simp only [List.mem_map] at hx
  obtain ⟨s, _, rfl⟩ := hx
  exact (dpWeight_pos cfg pos s).ne'

theorem tgGainVec_sumSq (cfg : RuntimeConfig) (layout : SpeakerLayout)
    (pos : ℚ × ℚ) (hne : layout ≠ ([] : List Speaker)) (hnd : layout.Nodup)
    (hmax : 0 < cfg.max_active_speakers)
    (hsm : 0 < cfg.smooth_min_distance)
    (henh : 0 < cfg.tactile_enhancement) :
    sumSq (tgGainVec cfg layout pos) = 1 := by
  have hW2 := tgNormalizer_pos cfg pos layout hne hmax hsm henh
  have hsortnd : (sortByDist pos layout).Nodup :=
    (sortByDist_perm pos layout).nodup_iff.mpr hnd
  have hperm : ((sortByDist pos layout).map (tgGain cfg layout pos)).Perm
      (layout.map (tgGain cfg layout pos)) :=
    (sortByDist_perm pos layout).map _
  have hsplit : sortByDist pos layout =
      tgSelected cfg pos layout ++ (sortByDist pos layout).drop cfg.max_active_speakers := by
    unfold tgSelected
    exact (List.take_append_drop _ _).symm
  have hdisj : (tgSelected cfg pos layout).Disjoint
      ((sortByDist pos layout).drop cfg.max_active_speakers) :=
    List.disjoint_take_drop hsortnd le_rfl
  calc sumSq (tgGainVec cfg layout pos)
      = sumSq ((sortByDist pos layout).map (tgGain cfg layout pos)) :=
        (sumSq_perm hperm).symm
    _ = sumSq ((tgSelected cfg pos layout).map (tgGain cfg layout pos)) +
          sumSq (((sortByDist pos layout).drop cfg.max_active_speakers).map
            (tgGain cfg layout pos)) := by
        rw [← sumSq_append, ← List.map_append, ← hsplit]
    _ = sumSq ((tgSelected cfg pos layout).map (tgGain cfg layout pos)) := by
        have hz : sumSq (((sortByDist pos layout).drop cfg.max_active_speakers).map
            (tgGain cfg layout pos)) = 0 := by
          unfold sumSq
          refine List.sum_eq_zero ?_
          intro x hx
          simp only [List.map_map, List.mem_map, Function.comp_def] at hx
          obtain ⟨s, hs, rfl⟩ := hx
          have hnotsel : s ∉ tgSelected cfg pos layout := fun hmem => hdisj hmem hs
          unfold tgGain
          rw [if_neg hnotsel]
          norm_num
        rw [hz, add_zero]
    _ = 1 := by
        have hmapeq : (tgSelected cfg pos layout).map (tgGain cfg layout pos) =
            (tgSelected cfg pos layout).map (fun s =>
              tgEnhanced cfg pos layout s /
                Real.sqrt (sumSq ((tgSelected cfg pos layout).map
                  (tgEnhanced cfg pos layout)))) := by
          refine List.map_congr_left ?_
          intro s hs
          unfold tgGain
          rw [if_pos hs]
        rw [hmapeq]
        exact sumSq_map_div_sqrt (tgEnhanced cfg pos layout) _ hW2

theorem dpGainVec_sumSq (cfg : RuntimeConfig) (layout : SpeakerLayout)
    (pos : ℚ × ℚ) (hne : layout ≠ ([] : List Speaker)) :
    sumSq (dpGainVec cfg layout pos) = 1 := by
  unfold dpGainVec dpGain
  exact sumSq_map_div_sqrt (dpWeight cfg pos) layout (dpNormalizer_pos cfg pos layout hne)

/-- C1: for every source position and every layout with at least one speaker
(channel-distinct, with at least one active speaker allowed and positive
smoothing and enhancement parameters, as in the defaults), the gain vector of
the `tactile_grid` strategy and of the `distance_pan` strategy has sum of
squared gains exactly 1 — in exact real arithmetic the floating-point
tolerance ε of the spec is not even needed — and `computeGains` returns
exactly these vectors. -/
theorem tactile_and_distance_pan_power_normalized (cfg : RuntimeConfig)
    (layout : SpeakerLayout) (pos : ℚ × ℚ)
    (hne : layout ≠ ([] : List Speaker)) (hnd : layout.Nodup)
    (hmax : 0 < cfg.max_active_speakers)
    (hsm : 0 < cfg.smooth_min_distance)
    (henh : 0 < cfg.tactile_enhancement) :
    sumSq (tgGainVec cfg layout pos) = 1 ∧
    sumSq (dpGainVec cfg layout pos) = 1 ∧
    computeGains .tactile_grid cfg layout pos =
      .ok ⟨tgGainVec cfg layout pos, 0, false⟩ ∧
    computeGains .distance_pan cfg layout pos =
      .ok ⟨dpGainVec cfg layout pos, 0, false⟩ := by
  refine ⟨tgGainVec_sumSq cfg layout pos hne hnd hmax hsm henh,
          dpGainVec_sumSq cfg layout pos hne, ?_, ?_⟩ <;>
    · unfold computeGains
      rw [if_neg hne]

/-- Witness for C1: a concrete one-speaker layout and config. -/
theorem tactile_and_distance_pan_power_normalized_witness :
    sumSq (tgGainVec ⟨1, 1, 1, 1, 1, 1, false, 1, 1, 1, 1, 1⟩
      [⟨0, 0, 0⟩] (0, 0)) = 1 ∧
    sumSq (dpGainVec ⟨1, 1, 1, 1, 1, 1, false, 1, 1, 1, 1, 1⟩
      [⟨0, 0, 0⟩] (0, 0)) = 1 ∧
    computeGains .tactile_grid ⟨1, 1, 1, 1, 1, 1, false, 1, 1, 1, 1, 1⟩
      [⟨0, 0, 0⟩] (0, 0) =
      .ok ⟨tgGainVec ⟨1, 1, 1, 1, 1, 1, false, 1, 1, 1, 1, 1⟩
        [⟨0, 0, 0⟩] (0, 0), 0, false⟩ ∧
    computeGains .distance_pan ⟨1, 1, 1, 1, 1, 1, false, 1, 1, 1, 1, 1⟩
      [⟨0, 0, 0⟩] (0, 0) =
      .ok ⟨dpGainVec ⟨1, 1, 1, 1, 1, 1, false, 1, 1, 1, 1, 1⟩
        [⟨0, 0, 0⟩] (0, 0), 0, false⟩ :=
  tactile_and_distance_pan_power_normalized _ _ _
    (by decide) (by decide) (by decide) (by decide) (by decide)

theorem tgEnhanced_as_smul (cfg : RuntimeConfig) (pos : ℚ × ℚ)
    (layout : SpeakerLayout) (s : Speaker) :
    tgEnhanced cfg pos layout s =
      (((cfg.tactile_enhancement : ℚ) : ℝ) / tgWeightSum cfg pos layout) *
        tgWeight cfg pos s := by
  unfold tgEnhanced
  ring

/-- The tactile pipeline collapses: normalizing the raw weights to sum 1,
multiplying by the enhancement factor, and power-normalizing yields exactly
the raw weights power-normalized — enhancement and sum-normalization cancel. -/
theorem tgGain_closed_form (cfg : RuntimeConfig) (layout : SpeakerLayout)
    (pos : ℚ × ℚ) (hne : layout ≠ ([] : List Speaker))
    (hmax : 0 < cfg.max_active_speakers)
    (hsm : 0 < cfg.smooth_min_distance)
    (henh : 0 < cfg.tactile_enhancement) :
    ∀ s ∈ tgSelected cfg pos layout,
      tgGain cfg layout pos s =
        tgWeight cfg pos s /
          Real.sqrt (sumSq ((tgSelected cfg pos layout).map (tgWeight cfg pos))) := by
  intro s hs
  set c : ℝ := ((cfg.tactile_enhancement : ℚ) : ℝ) / tgWeightSum cfg pos layout with hc
  have hcpos : 0 < c := by
    rw [hc]
    exact div_pos (by exact_mod_cast henh) (tgWeightSum_pos cfg pos layout hne hmax hsm)
  have hmapE : (tgSelected cfg pos layout).map (tgEnhanced cfg pos layout) =
      (tgSelected cfg pos layout).map (fun t => c * tgWeight cfg pos t) :=
    List.map_congr_left (fun t _ => tgEnhanced_as_smul cfg pos layout t)
  have hsum : sumSq ((tgSelected cfg pos layout).map (tgEnhanced cfg pos layout)) =
      c ^ 2 * sumSq ((tgSelected cfg pos layout).map (tgWeight cfg pos)) := by
    rw [hmapE]
    exact sumSq_map_smul c (tgWeight cfg pos) _
  have hsqrt : Real.sqrt (sumSq ((tgSelected cfg pos layout).map
      (tgEnhanced cfg pos layout))) =
      c * Real.sqrt (sumSq ((tgSelected cfg pos layout).map (tgWeight cfg pos))) := by
    rw [hsum, Real.sqrt_mul (sq_nonneg c), Real.sqrt_sq hcpos.le]
  unfold tgGain
  rw [if_pos hs, hsqrt, tgEnhanced_as_smul, ← hc]
  exact mul_div_mul_left _ _ hcpos.ne'

/-- C2: the `tactile_grid` gain vector is computed exactly by the documented
pipeline — select the up to `max_active_speakers` nearest speakers (defaults:
6), weight each by `1/(distance + smooth_min_distance)^distance_power`
(defaults 0.008 m and 1.5) or by the Gaussian when `use_gaussian` is set,
normalize the weights to sum 1, multiply by `tactile_enhancement` (default
1.2), rescale so the sum of squared gains is 1 — so every non-selected
speaker receives gain 0 and every selected speaker receives its raw weight
power-normalized over the selected set. -/
theorem tactile_grid_pipeline (cfg : RuntimeConfig) (layout : SpeakerLayout)
    (pos : ℚ × ℚ) (hne : layout ≠ ([] : List Speaker))
    (hmax : 0 < cfg.max_active_speakers)
    (hsm : 0 < cfg.smooth_min_distance)
    (henh : 0 < cfg.tactile_enhancement) :
    (∀ s ∈ layout, s ∉ tgSelected cfg pos layout → tgGain cfg layout pos s = 0) ∧
    (∀ s ∈ tgSelected cfg pos layout,
      tgGain cfg layout pos s =
        tgWeight cfg pos s /
          Real.sqrt (sumSq ((tgSelected cfg pos layout).map (tgWeight cfg pos)))) ∧
    (tgSelected cfg pos layout).length =
      min cfg.max_active_speakers layout.length ∧
    defaultConfig.max_active_speakers = 6 ∧
    defaultConfig.smooth_min_distance = 8/1000 ∧
    defaultConfig.distance_power = 3/2 ∧
    defaultConfig.tactile_enhancement = 12/10 ∧
    defaultConfig.use_gaussian = false := by
  refine ⟨?_, tgGain_closed_form cfg layout pos hne hmax hsm henh, ?_, rfl, ?_, rfl, ?_, rfl⟩
  · intro s _ hnot
    unfold tgGain
    rw [if_neg hnot]
  · unfold tgSelected sortByDist
    rw [List.length_take, List.length_mergeSort]
  · unfold defaultConfig
    norm_num
  · unfold defaultConfig
    norm_num

/-- Witness for C2: a concrete two-speaker layout and config. -/
theorem tactile_grid_pipeline_witness :
    (∀ s ∈ ([⟨0, 0, 0⟩, ⟨1, 1, 0⟩] : SpeakerLayout),
      s ∉ tgSelected ⟨1, 1, 1, 1, 1, 1, false, 1, 1, 1, 1, 1⟩ (0, 0)
          [⟨0, 0, 0⟩, ⟨1, 1, 0⟩] →
      tgGain ⟨1, 1, 1, 1, 1, 1, false, 1, 1, 1, 1, 1⟩
        [⟨0, 0, 0⟩, ⟨1, 1, 0⟩] (0, 0) s = 0) ∧
    (∀ s ∈ tgSelected ⟨1, 1, 1, 1, 1, 1, false, 1, 1, 1, 1, 1⟩ (0, 0)
        [⟨0, 0, 0⟩, ⟨1, 1, 0⟩],
      tgGain ⟨1, 1, 1, 1, 1, 1, false, 1, 1, 1, 1, 1⟩
        [⟨0, 0, 0⟩, ⟨1, 1, 0⟩] (0, 0) s =
        tgWeight ⟨1, 1, 1, 1, 1, 1, false, 1, 1, 1, 1, 1⟩ (0, 0) s /
          Real.sqrt (sumSq ((tgSelected ⟨1, 1, 1, 1, 1, 1, false, 1, 1, 1, 1, 1⟩
            (0, 0) [⟨0, 0, 0⟩, ⟨1, 1, 0⟩]).map
              (tgWeight ⟨1, 1, 1, 1, 1, 1, false, 1, 1, 1, 1, 1⟩ (0, 0))))) ∧
    (tgSelected ⟨1, 1, 1, 1, 1, 1, false, 1, 1, 1, 1, 1⟩ (0, 0)
      [⟨0, 0, 0⟩, ⟨1, 1, 0⟩]).length =
      min (RuntimeConfig.max_active_speakers ⟨1, 1, 1, 1, 1, 1, false, 1, 1, 1, 1, 1⟩)
        ([⟨0, 0, 0⟩, ⟨1, 1, 0⟩] : SpeakerLayout).length ∧
    defaultConfig.max_active_speakers = 6 ∧
    defaultConfig.smooth_min_distance = 8/1000 ∧
    defaultConfig.distance_power = 3/2 ∧
    defaultConfig.tactile_enhancement = 12/10 ∧
    defaultConfig.use_gaussian = false :=
  tactile_grid_pipeline ⟨1, 1, 1, 1, 1, 1, false, 1, 1, 1, 1, 1⟩
    [⟨0, 0, 0⟩, ⟨1, 1, 0⟩] (0, 0) (by decide) (by decide) (by decide) (by decide)

/-! ### nearest_neighbor lemmas -/

theorem distSq_nonneg (pos : ℚ × ℚ) (s : Speaker) : 0 ≤ distSq pos s := by
  unfold distSq
  positivity

theorem nnPick_or (pos : ℚ × ℚ) (a b : Speaker) :
    nnPick pos a b = a ∨ nnPick pos a b = b := by
  unfold nnPick
  split
  · right; rfl
  · left; rfl

theorem nnPick_le_left (pos : ℚ × ℚ) (a b : Speaker) :
    distSq pos (nnPick pos a b) < distSq pos a ∨
      (distSq pos (nnPick pos a b) = distSq pos a ∧
        (nnPick pos a b).channel ≤ a.channel) := by
  unfold nnPick
  split
  · next h =>
    rcases h with h | ⟨h1, h2⟩
    · left; exact h
    · right; exact ⟨h1, h2.le⟩
  · right; exact ⟨rfl, le_rfl⟩

theorem nnPick_le_right (pos : ℚ × ℚ) (a b : Speaker) :
    distSq pos (nnPick pos a b) < distSq pos b ∨
      (distSq pos (nnPick pos a b) = distSq pos b ∧
        (nnPick pos a b).channel ≤ b.channel) := by
  unfold nnPick
  split
  · right; exact ⟨rfl, le_rfl⟩
  · next h =>
    push_neg at h
    obtain ⟨h1, h2⟩ := h
    rcases lt_or_eq_of_le h1 with hlt | heq
    · left; exact hlt
    · right; exact ⟨heq, h2 heq.symm⟩

theorem nnLE_trans {pos : ℚ × ℚ} {a b c : Speaker}
    (hab : distSq pos a < distSq pos b ∨
      (distSq pos a = distSq pos b ∧ a.channel ≤ b.channel))
    (hbc : distSq pos b < distSq pos c ∨
      (distSq pos b = distSq pos c ∧ b.channel ≤ c.channel)) :
    distSq pos a < distSq pos c ∨
      (distSq pos a = distSq pos c ∧ a.channel ≤ c.channel) := by
  rcases hab with h1 | ⟨h1, h1c⟩ <;> rcases hbc with h2 | ⟨h2, h2c⟩
  · left; exact h1.trans h2
  · left; exact h2 ▸ h1
  · left; exact h1 ▸ h2
  · right; exact ⟨h1.trans h2, h1c.trans h2c⟩

theorem nnFold_mem (pos : ℚ × ℚ) :
    ∀ (l : List Speaker) (acc : Speaker), l.foldl (nnPick pos) acc ∈ acc :: l
  | [], acc => by simp
  | x :: xs, acc => by
    have ih := nnFold_mem pos xs (nnPick pos acc x)
    rcases List.mem_cons.mp ih with h | h
    · rcases nnPick_or pos acc x with hp | hp
      · rw [List.foldl_cons, h, hp]; simp
      · rw [List.foldl_cons, h, hp]; simp
    · rw [List.foldl_cons]
      exact List.mem_cons_of_mem _ (List.mem_cons_of_mem _ h)

theorem nnFold_le (pos : ℚ × ℚ) :
    ∀ (l : List Speaker) (acc : Speaker),
      (distSq pos (l.foldl (nnPick pos) acc) < distSq pos acc ∨
        (distSq pos (l.foldl (nnPick pos) acc) = distSq pos acc ∧
          (l.foldl (nnPick pos) acc).channel ≤ acc.channel)) ∧
      ∀ s ∈ l, distSq pos (l.foldl (nnPick pos) acc) < distSq pos s ∨
        (distSq pos (l.foldl (nnPick pos) acc) = distSq pos s ∧
          (l.foldl (nnPick pos) acc).channel ≤ s.channel)
  | [], acc => ⟨Or.inr ⟨rfl, le_rfl⟩, by simp⟩
  | x :: xs, acc => by
    have ih := nnFold_le pos xs (nnPick pos acc x)
    rw [List.foldl_cons]
    refine ⟨nnLE_trans ih.1 (nnPick_le_left pos acc x), ?_⟩
    intro s hs
    rcases List.mem_cons.mp hs with rfl | hmem
    · exact nnLE_trans ih.1 (nnPick_le_right pos acc s)
    · exact ih.2 s hmem

theorem dist_le_dist_of_distSq_le {pos : ℚ × ℚ} {a b : Speaker}
    (h : distSq pos a ≤ distSq pos b) : dist pos a ≤ dist pos b :=
  Real.sqrt_le_sqrt (by exact_mod_cast h)

theorem distSq_eq_of_dist_eq {pos : ℚ × ℚ} {a b : Speaker}
    (h : dist pos a = dist pos b) : distSq pos a = distSq pos b := by
  have ha : (0 : ℝ) ≤ ((distSq pos a : ℚ) : ℝ) := by
    exact_mod_cast distSq_nonneg pos a
  have hb : (0 : ℝ) ≤ ((distSq pos b : ℚ) : ℝ) := by
    exact_mod_cast distSq_nonneg pos b
  have := (Real.sqrt_inj ha hb).mp h
  exact_mod_cast this

/-- C6: for every source position and every nonempty layout, the
`nearest_neighbor` strategy assigns gain 1.0 to exactly one speaker — a
speaker at minimum distance from the source, and of lowest channel number
among the speakers tied at that minimum — and gain 0.0 to every other
speaker. -/
theorem nearest_neighbor_unique_gain (pos : ℚ × ℚ) (layout : SpeakerLayout)
    (hne : layout ≠ ([] : List Speaker)) :
    nnBest pos layout ∈ layout ∧
    nnGain pos layout (nnBest pos layout) = 1 ∧
    (∀ s ∈ layout, s ≠ nnBest pos layout → nnGain pos layout s = 0) ∧
    (∀ s ∈ layout, dist pos (nnBest pos layout) ≤ dist pos s) ∧
    (∀ s ∈ layout, dist pos s = dist pos (nnBest pos layout) →
      (nnBest pos layout).channel ≤ s.channel) ∧
    (∃! s : Speaker, s ∈ layout ∧ nnGain pos layout s = 1) := by
  rcases layout with _ | ⟨a, rest⟩
  · exact absurd rfl hne
  have hbest : nnBest pos (a :: rest) = rest.foldl (nnPick pos) a := rfl
  have hmem : nnBest pos (a :: rest) ∈ a :: rest := by
    rw [hbest]; exact nnFold_mem pos rest a
  have hle := nnFold_le pos rest a
  have hall : ∀ s ∈ a :: rest,
      distSq pos (nnBest pos (a :: rest)) < distSq pos s ∨
        (distSq pos (nnBest pos (a :: rest)) = distSq pos s ∧
          (nnBest pos (a :: rest)).channel ≤ s.channel) := by
    intro s hs
    rcases List.mem_cons.mp hs with rfl | hmem'
    · rw [hbest]; exact hle.1
    · rw [hbest]; exact hle.2 s hmem'
  refine ⟨hmem, ?_, ?_, ?_, ?_, ?_⟩
  · unfold nnGain
    rw [if_pos rfl]
  · intro s _ hs
    unfold nnGain
    rw [if_neg hs]
  · intro s hs
    rcases hall s hs with h | ⟨h, _⟩
    · exact dist_le_dist_of_distSq_le h.le
    · exact dist_le_dist_of_distSq_le h.le
  · intro s hs hdist
    have heq : distSq pos s = distSq pos (nnBest pos (a :: rest)) :=
      distSq_eq_of_dist_eq hdist
    rcases hall s hs with h | ⟨_, h⟩
    · rw [heq] at h
      exact absurd h (lt_irrefl _)
    · exact h
  · refine ⟨nnBest pos (a :: rest), ⟨hmem, by unfold nnGain; rw [if_pos rfl]⟩, ?_⟩
    intro s ⟨_, hs1⟩
    by_contra hne'
    unfold nnGain at hs1
    rw [if_neg hne'] at hs1
    exact zero_ne_one hs1

/-- Witness for C6 at a concrete layout with a distance tie: two speakers
equally distant from the source, the lower channel winning. -/
theorem nearest_neighbor_unique_gain_witness :
    nnBest (0, 0) [⟨3, 1, 0⟩, ⟨1, 0, 1⟩, ⟨2, 5, 5⟩] ∈
      ([⟨3, 1, 0⟩, ⟨1, 0, 1⟩, ⟨2, 5, 5⟩] : SpeakerLayout) ∧
    nnGain (0, 0) [⟨3, 1, 0⟩, ⟨1, 0, 1⟩, ⟨2, 5, 5⟩]
      (nnBest (0, 0) [⟨3, 1, 0⟩, ⟨1, 0, 1⟩, ⟨2, 5, 5⟩]) = 1 ∧
    (∀ s ∈ ([⟨3, 1, 0⟩, ⟨1, 0, 1⟩, ⟨2, 5, 5⟩] : SpeakerLayout),
      s ≠ nnBest (0, 0) [⟨3, 1, 0⟩, ⟨1, 0, 1⟩, ⟨2, 5, 5⟩] →
      nnGain (0, 0) [⟨3, 1, 0⟩, ⟨1, 0, 1⟩, ⟨2, 5, 5⟩] s = 0) ∧
    (∀ s ∈ ([⟨3, 1, 0⟩, ⟨1, 0, 1⟩, ⟨2, 5, 5⟩] : SpeakerLayout),
      dist (0, 0) (nnBest (0, 0) [⟨3, 1, 0⟩, ⟨1, 0, 1⟩, ⟨2, 5, 5⟩]) ≤ dist (0, 0) s) ∧
    (∀ s ∈ ([⟨3, 1, 0⟩, ⟨1, 0, 1⟩, ⟨2, 5, 5⟩] : SpeakerLayout),
      dist (0, 0) s = dist (0, 0) (nnBest (0, 0) [⟨3, 1, 0⟩, ⟨1, 0, 1⟩, ⟨2, 5, 5⟩]) →
      (nnBest (0, 0) [⟨3, 1, 0⟩, ⟨1, 0, 1⟩, ⟨2, 5, 5⟩]).channel ≤ s.channel) ∧
    (∃! s : Speaker, s ∈ ([⟨3, 1, 0⟩, ⟨1, 0, 1⟩, ⟨2, 5, 5⟩] : SpeakerLayout) ∧
      nnGain (0, 0) [⟨3, 1, 0⟩, ⟨1, 0, 1⟩, ⟨2, 5, 5⟩] s = 1) :=
  nearest_neighbor_unique_gain (0, 0) [⟨3, 1, 0⟩, ⟨1, 0, 1⟩, ⟨2, 5, 5⟩] (by decide)

/-- C8: whenever the `itd_ild` strategy is invoked on a nonempty layout whose
speaker count is not exactly two, it produces exactly the same gain result as
the `distance_pan` strategy on the same position and layout, non-fatally
(`.ok`, not an error), with the logged warning recorded — while
`distance_pan` itself logs no warning. -/
theorem itd_ild_delegates_to_distance_pan (cfg : RuntimeConfig)
    (layout : SpeakerLayout) (pos : ℚ × ℚ)
    (hne : layout ≠ ([] : List Speaker)) (hlen : layout.length ≠ 2) :
    computeGains .itd_ild cfg layout pos =
      .ok ⟨dpGainVec cfg layout pos, 0, true⟩ ∧
    computeGains .distance_pan cfg layout pos =
      .ok ⟨dpGainVec cfg layout pos, 0, false⟩ := by
  constructor
  · unfold computeGains
    rw [if_neg hne]
    rcases layout with _ | ⟨a, _ | ⟨b, _ | ⟨c, r⟩⟩⟩
    · exact absurd rfl hne
    · rfl
    · exact absurd rfl hlen
    · rfl
  · unfold computeGains
    rw [if_neg hne]

/-- Witness for C8: a three-speaker layout. -/
theorem itd_ild_delegates_to_distance_pan_witness :
    computeGains .itd_ild ⟨1, 1, 1, 1, 1, 1, false, 1, 1, 1, 1, 1⟩
      [⟨0, 0, 0⟩, ⟨1, 1, 0⟩, ⟨2, 0, 1⟩] (0, 0) =
      .ok ⟨dpGainVec ⟨1, 1, 1, 1, 1, 1, false, 1, 1, 1, 1, 1⟩
        [⟨0, 0, 0⟩, ⟨1, 1, 0⟩, ⟨2, 0, 1⟩] (0, 0), 0, true⟩ ∧
    computeGains .distance_pan ⟨1, 1, 1, 1, 1, 1, false, 1, 1, 1, 1, 1⟩
      [⟨0, 0, 0⟩, ⟨1, 1, 0⟩, ⟨2, 0, 1⟩] (0, 0) =
      .ok ⟨dpGainVec ⟨1, 1, 1, 1, 1, 1, false, 1, 1, 1, 1, 1⟩
        [⟨0, 0, 0⟩, ⟨1, 1, 0⟩, ⟨2, 0, 1⟩] (0, 0), 0, false⟩ :=
  itd_ild_delegates_to_distance_pan ⟨1, 1, 1, 1, 1, 1, false, 1, 1, 1, 1, 1⟩
    [⟨0, 0, 0⟩, ⟨1, 1, 0⟩, ⟨2, 0, 1⟩] (0, 0) (by decide) (by decide)

/-- C9: for every source position — including a position coinciding with a
speaker — and every strategy, every distance used as a divisor is clamped to
(or offset by) a positive minimum before division, every normalization
denominator is strictly positive, and `computeGains` returns a result rather
than surfacing a runtime error. -/
theorem strategies_never_divide_by_zero (m : Method) (cfg : RuntimeConfig)
    (layout : SpeakerLayout) (pos : ℚ × ℚ)
    (hne : layout ≠ ([] : List Speaker))
    (hmax : 0 < cfg.max_active_speakers)
    (hsm : 0 < cfg.smooth_min_distance)
    (henh : 0 < cfg.tactile_enhancement) :
    (computeGains m cfg layout pos).isOk = true ∧
    (0 : ℝ) < ((minDistance : ℚ) : ℝ) ∧
    (∀ s : Speaker, ((minDistance : ℚ) : ℝ) ≤ clampDist pos s ∧
      0 < clampDist pos s) ∧
    (∀ s : Speaker, 0 < dist pos s + ((cfg.smooth_min_distance : ℚ) : ℝ)) ∧
    0 < Real.sqrt (sumSq (layout.map (dpWeight cfg pos))) ∧
    0 < tgWeightSum cfg pos layout ∧
    0 < Real.sqrt (sumSq ((tgSelected cfg pos layout).map
      (tgEnhanced cfg pos layout))) := by
  refine ⟨?_, minDistance_cast_pos,
    fun s => ⟨clampDist_ge pos s, clampDist_pos pos s⟩, ?_, ?_, ?_, ?_⟩
  · unfold computeGains
    rw [if_neg hne]
    cases m with
    | itd_ild =>
      rcases layout with _ | ⟨a, _ | ⟨b, _ | ⟨c, r⟩⟩⟩ <;> rfl
    | tactile_grid => rfl
    | vbap => rfl
    | distance_pan => rfl
    | nearest_neighbor => rfl
  · intro s
    have h1 : (0 : ℝ) < ((cfg.smooth_min_distance : ℚ) : ℝ) := by exact_mod_cast hsm
    have h2 : (0 : ℝ) ≤ dist pos s := dist_nonneg' pos s
    linarith
  · exact Real.sqrt_pos.mpr (dpNormalizer_pos cfg pos layout hne)
  · exact tgWeightSum_pos cfg pos layout hne hmax hsm
  · exact Real.sqrt_pos.mpr (tgNormalizer_pos cfg pos layout hne hmax hsm henh)

/-- Witness for C9: the source position coincides exactly with a speaker. -/
theorem strategies_never_divide_by_zero_witness :
    (computeGains .tactile_grid ⟨1, 1, 1, 1, 1, 1, false, 1, 1, 1, 1, 1⟩
      [⟨0, 0, 0⟩, ⟨1, 1, 0⟩] (0, 0)).isOk = true ∧
    (0 : ℝ) < ((minDistance : ℚ) : ℝ) ∧
    (∀ s : Speaker, ((minDistance : ℚ) : ℝ) ≤ clampDist (0, 0) s ∧
      0 < clampDist (0, 0) s) ∧
    (∀ s : Speaker, 0 < dist (0, 0) s +
      ((RuntimeConfig.smooth_min_distance ⟨1, 1, 1, 1, 1, 1, false, 1, 1, 1, 1, 1⟩ : ℚ) : ℝ)) ∧
    0 < Real.sqrt (sumSq (([⟨0, 0, 0⟩, ⟨1, 1, 0⟩] : SpeakerLayout).map
      (dpWeight ⟨1, 1, 1, 1, 1, 1, false, 1, 1, 1, 1, 1⟩ (0, 0)))) ∧
    0 < tgWeightSum ⟨1, 1, 1, 1, 1, 1, false, 1, 1, 1, 1, 1⟩ (0, 0)
      [⟨0, 0, 0⟩, ⟨1, 1, 0⟩] ∧
    0 < Real.sqrt (sumSq ((tgSelected ⟨1, 1, 1, 1, 1, 1, false, 1, 1, 1, 1, 1⟩
      (0, 0) [⟨0, 0, 0⟩, ⟨1, 1, 0⟩]).map
        (tgEnhanced ⟨1, 1, 1, 1, 1, 1, false, 1, 1, 1, 1, 1⟩ (0, 0)
          [⟨0, 0, 0⟩, ⟨1, 1, 0⟩]))) :=
  strategies_never_divide_by_zero .tactile_grid
    ⟨1, 1, 1, 1, 1, 1, false, 1, 1, 1, 1, 1⟩ [⟨0, 0, 0⟩, ⟨1, 1, 0⟩] (0, 0)
    (by decide) (by decide) (by decide) (by decide)

/-! ### Interpreter lemmas -/

theorem stepCmd_cfg_snapshot (st : InterpState) (c : Cmd) :
    ∀ e ∈ (stepCmd st c).2, e.cfg = st.cfg := by
  intro e he
  cases c <;>
    simp only [stepCmd, List.mem_singleton, List.mem_map,
      List.not_mem_nil] at he
  all_goals first
    | exact he.elim
    | rw [he]
    | (obtain ⟨i, _, h⟩ := he; rw [← h])

theorem runCmds_append (st : InterpState) (cs₁ cs₂ : List Cmd) :
    runCmds st (cs₁ ++ cs₂) =
      ((runCmds (runCmds st cs₁).1 cs₂).1,
       (runCmds st cs₁).2 ++ (runCmds (runCmds st cs₁).1 cs₂).2) := by
  induction cs₁ generalizing st with
  | nil => simp [runCmds]
  | cons c cs ih =>
      simp only [List.cons_append, runCmds, List.append_eq]
      rw [ih (stepCmd st c).1]
      simp [List.append_assoc]

/-- C4: configuration assignments take effect only for subsequently enqueued
events.  Every tone event enqueued by a command carries the `RuntimeConfig`
snapshot current at its enqueue time; a `ConfigAssign` emits no event and
only replaces the config snapshot of the interpreter state; and the events
produced by the commands before a `ConfigAssign` appear unchanged in the
run of the whole script — the assignment (and anything after it) never
retroactively changes an already-enqueued event. -/
theorem config_assign_not_retroactive :
    (∀ (st : InterpState) (c : Cmd), ∀ e ∈ (stepCmd st c).2, e.cfg = st.cfg) ∧
    (∀ (st : InterpState) (k : ConfigKey) (v : ℚ),
      stepCmd st (.configAssign k v) =
        ({ st with cfg := st.cfg.setKey k v }, [])) ∧
    (∀ (st : InterpState) (pre : List Cmd) (k : ConfigKey) (v : ℚ)
        (post : List Cmd),
      (runCmds st (pre ++ .configAssign k v :: post)).2 =
        (runCmds st pre).2 ++
          (runCmds ({ (runCmds st pre).1 with
            cfg := (runCmds st pre).1.cfg.setKey k v }) post).2) := by
  refine ⟨stepCmd_cfg_snapshot, fun _ _ _ => rfl, ?_⟩
  intro st pre k v post
  rw [runCmds_append]
  simp only [runCmds, stepCmd, List.nil_append]

/-- Witness for C4: concrete state, command and event. -/
theorem config_assign_not_retroactive_witness :
    (ToneEvent.cfg ⟨0, RuntimeConfig.tone_duration ⟨1, 1, 1, 1, 1, 1, false, 1, 1, 1, 1, 1⟩, 1,
        fadeFor ⟨1, 1, 1, 1, 1, 1, false, 1, 1, 1, 1, 1⟩
          (RuntimeConfig.tone_duration ⟨1, 1, 1, 1, 1, 1, false, 1, 1, 1, 1, 1⟩),
        .fixed (0, 0) 1, ⟨1, 1, 1, 1, 1, 1, false, 1, 1, 1, 1, 1⟩⟩) =
      InterpState.cfg ⟨0, (0, 0), ⟨1, 1, 1, 1, 1, 1, false, 1, 1, 1, 1, 1⟩⟩ :=
  config_assign_not_retroactive.1
    ⟨0, (0, 0), ⟨1, 1, 1, 1, 1, 1, false, 1, 1, 1, 1, 1⟩⟩
    (.sound (0, 0) 1 1) _ (List.mem_singleton.mpr rfl)

/-- C7: for an `ARC` (or `PATH_FREQ_RAMP`) given exactly two points, the
interpolated position at fraction 0 is exactly p1 and at fraction 1 exactly
p2, and `MODE=CURVED` with only two points yields exactly the same sequence
of interpolated positions — and the same enqueued event positions — as
`MODE=STRAIGHT`. -/
theorem arc_two_point_endpoints (p1 p2 : ℚ × ℚ) (m : PathMode) (steps : ℕ) :
    pathPos [p1, p2] m 0 = p1 ∧
    pathPos [p1, p2] m 1 = p2 ∧
    pathPositions [p1, p2] .curved steps = pathPositions [p1, p2] .straight steps ∧
    (∀ (st : InterpState) (dur f a : ℚ),
      ((stepCmd st (.arc [p1, p2] .curved dur steps f a)).2).map eventFixedPos =
        ((stepCmd st (.arc [p1, p2] .straight dur steps f a)).2).map eventFixedPos) ∧
    (∀ (st : InterpState) (f0 f1 dur a : ℚ),
      ((stepCmd st (.pathFreqRamp [p1, p2] .curved f0 f1 dur steps a)).2).map
          eventFixedPos =
        ((stepCmd st (.pathFreqRamp [p1, p2] .straight f0 f1 dur steps a)).2).map
          eventFixedPos) := by
  have hmode : ∀ t : ℚ, pathPos [p1, p2] PathMode.curved t =
      pathPos [p1, p2] PathMode.straight t := fun _ => rfl
  have h0 : pathPos [p1, p2] m 0 = p1 := by
    cases m <;>
      · show interpPoint p1 p2 0 = p1
        unfold interpPoint
        ext <;> ring
  have h1 : pathPos [p1, p2] m 1 = p2 := by
    cases m <;>
      · show interpPoint p1 p2 1 = p2
        unfold interpPoint
        ext <;> ring
  refine ⟨h0, h1, rfl, fun st dur f a => ?_, fun st f0 f1 dur a => ?_⟩ <;>
    · simp only [stepCmd, List.map_map]
      exact List.map_congr_left
        (fun i _ => by simp [Function.comp, eventFixedPos, hmode])

/-- Witness for C7 at concrete points. -/
theorem arc_two_point_endpoints_witness :
    pathPos [(0, 0), (2, 3)] .curved 0 = (0, 0) ∧
    pathPos [(0, 0), (2, 3)] .curved 1 = (2, 3) ∧
    pathPositions [(0, 0), (2, 3)] .curved 5 =
      pathPositions [(0, 0), (2, 3)] .straight 5 ∧
    (∀ (st : InterpState) (dur f a : ℚ),
      ((stepCmd st (.arc [(0, 0), (2, 3)] .curved dur 5 f a)).2).map eventFixedPos =
        ((stepCmd st (.arc [(0, 0), (2, 3)] .straight dur 5 f a)).2).map
          eventFixedPos) ∧
    (∀ (st : InterpState) (f0 f1 dur a : ℚ),
      ((stepCmd st (.pathFreqRamp [(0, 0), (2, 3)] .curved f0 f1 dur 5 a)).2).map
          eventFixedPos =
        ((stepCmd st (.pathFreqRamp [(0, 0), (2, 3)] .straight f0 f1 dur 5 a)).2).map
          eventFixedPos) :=
  arc_two_point_endpoints (0, 0) (2, 3) .curved 5

/-! ### Parser lemmas -/

theorem parseLines_fail_fast (pre : List (List Char)) (n : ℕ) (bad : List Char)
    (rest : List (List Char)) (e : ParseErr)
    (hok : ∀ l ∈ pre, (parseLine l).isOk = true)
    (hbad : parseLine bad = .error e) :
    parseLines n (pre ++ bad :: rest) = .error (n + pre.length, e) := by
  induction pre generalizing n with
  | nil => simp [parseLines, hbad]
  | cons l ls ih =>
      have hl := hok l (by simp)
      have ihh := ih (n + 1) (fun x hx => hok x (by simp [hx]))
      rcases hpl : parseLine l with e' | oc
      · rw [hpl] at hl
        simp [Except.isOk, Except.toBool] at hl
      · rcases oc with _ | c <;>
        · rw [show n + (l :: ls).length = n + 1 + ls.length by
            simp [List.length_cons]
            omega]
          simp only [List.cons_append, parseLines, hpl, List.append_eq]
          rw [ihh]
          try rfl

/-- C5 (amended): parsing a script fails with a `ParseError` tagged with the
1-based line number of the first erroneous line — e.g. one containing an
unparsable numeric literal or missing a required key — the whole parse
aborts there producing no command list, and the script executes nothing at
all.  (Per the scripting reference and the repo demo scripts, `MODE=CURVED`
with only two points is *not* an error: it is accepted and falls back to
straight-line interpolation.) -/
theorem script_parse_fail_fast (s : String) (pre : List (List Char))
    (bad : List Char) (rest : List (List Char)) (e : ParseErr)
    (hsplit : splitOnChar '\n' s.data = pre ++ bad :: rest)
    (hok : ∀ l ∈ pre, (parseLine l).isOk = true)
    (hbad : parseLine bad = .error e) :
    parseScript s = .error (pre.length + 1, e) ∧
    (∀ cs : List PCmd, parseScript s ≠ .ok cs) ∧
    runScript s = [] := by
  have h : parseScript s = .error (pre.length + 1, e) := by
    unfold parseScript
    rw [hsplit, parseLines_fail_fast pre 1 bad rest e hok hbad, Nat.add_comm]
  refine ⟨h, ?_, ?_⟩
  · intro cs hcs
    rw [h] at hcs
    exact Except.noConfusion hcs
  · unfold runScript
    rw [h]

/-- Witness for C5 (amended): a concrete two-line script whose second line
holds the unparsable numeric literal `FREQ=abc`. -/
theorem script_parse_fail_fast_witness :
    parseScript "WAIT 1.0\nSOUND 0,0 FREQ=abc AMP=0.5" = .error (2, .badNumber) ∧
    (∀ cs : List PCmd,
      parseScript "WAIT 1.0\nSOUND 0,0 FREQ=abc AMP=0.5" ≠ .ok cs) ∧
    runScript "WAIT 1.0\nSOUND 0,0 FREQ=abc AMP=0.5" = [] :=
  script_parse_fail_fast "WAIT 1.0\nSOUND 0,0 FREQ=abc AMP=0.5"
    ["WAIT 1.0".data] "SOUND 0,0 FREQ=abc AMP=0.5".data [] .badNumber
    (by decide) (by decide) (by decide)

/-- C5 counterexample: contrary to the claim that `MODE=CURVED` with fewer
than 3 points is a `ParseError`, a two-point `ARC ... MODE=CURVED` line —
the very form used by the repo demo scripts — parses successfully into an
arc command. -/
theorem curved_two_point_arc_parses :
    parseScript
      "ARC 0.0,0.0 0.02,0.02 DURATION=1.0 STEPS=4 FREQ=200 AMP=0.5 MODE=CURVED" =
      .ok [.arc [(⟨false, 0, 0, 1⟩, ⟨false, 0, 0, 1⟩),
                 (⟨false, 0, 2, 2⟩, ⟨false, 0, 2, 2⟩)]
        .curved ⟨false, 1, 0, 1⟩ 4 ⟨false, 200, 0, 0⟩ ⟨false, 0, 5, 1⟩] := by
  decide
